import Mathlib

/- A shallow embedding of wagtailimportexport/importing.py.

The dynamic (Python) values handled by the import engine are embedded as the
inductive type PyVal; Python dicts become association lists with
insert-or-overwrite update, preserving insertion order, as Python dicts do.
Wagtail block definitions (PageChooserBlock, RichTextBlock, StructBlock,
StreamBlock, and atomic blocks such as CharBlock) are embedded as the
inductive type Block.  Python exceptions are embedded with the Except monad:
a function that can raise returns Except PyErr.  The ORM persistence layer,
model/schema introspection and JSON (de)serialization are external
collaborators of the code under analysis and enter as explicit parameters. -/

/-- Python exceptions raised by importing.py, by kind. -/
inductive PyErr where
  | keyError (key : String)
  | typeError (msg : String)
  | nameError (name : String)
  | attributeError (msg : String)
  | lookupError (msg : String)
  | valueError (msg : String)
  | indexError (msg : String)
  | xmlSyntaxError (msg : String)
  deriving DecidableEq

/-- A Wagtail block definition (the schema side of a StreamField).  charB
stands for any atomic block kind with no page references (CharBlock etc.). -/
inductive Block where
  | pageChooser
  | richText
  | structB (child_blocks : List (String × Block))
  | streamB (child_blocks : List (String × Block))
  | charB (name : String)

mutual

/-- Structural equality test for Block (needed because deriving DecidableEq
is unavailable for nested inductives in this toolchain). -/
def Block.beq : Block → Block → Bool
  | .pageChooser, .pageChooser => true
  | .richText, .richText => true
  | .charB n, .charB m => n == m
  | .structB xs, .structB ys => Block.beqPairs xs ys
  | .streamB xs, .streamB ys => Block.beqPairs xs ys
  | _, _ => false

/-- Structural equality test for child-block lists. -/
def Block.beqPairs : List (String × Block) → List (String × Block) → Bool
  | [], [] => true
  | (n, x) :: xs, (m, y) :: ys => n == m && Block.beq x y && Block.beqPairs xs ys
  | _, _ => false

end

mutual

/-- Block.beq decides propositional equality. -/
theorem blockBeq_iff : ∀ (a b : Block), Block.beq a b = true ↔ a = b
  | .pageChooser, .pageChooser => by simp [Block.beq]
  | .richText, .richText => by simp [Block.beq]
  | .charB n, .charB m => by simp [Block.beq]
  | .structB xs, .structB ys => by
      simp only [Block.beq, Block.structB.injEq]
      exact blockBeqPairs_iff xs ys
  | .streamB xs, .streamB ys => by
      simp only [Block.beq, Block.streamB.injEq]
      exact blockBeqPairs_iff xs ys
  | .pageChooser, .richText => by simp [Block.beq]
  | .pageChooser, .structB _ => by simp [Block.beq]
  | .pageChooser, .streamB _ => by simp [Block.beq]
  | .pageChooser, .charB _ => by simp [Block.beq]
  | .richText, .pageChooser => by simp [Block.beq]
  | .richText, .structB _ => by simp [Block.beq]
  | .richText, .streamB _ => by simp [Block.beq]
  | .richText, .charB _ => by simp [Block.beq]
  | .structB _, .pageChooser => by simp [Block.beq]
  | .structB _, .richText => by simp [Block.beq]
  | .structB _, .streamB _ => by simp [Block.beq]
  | .structB _, .charB _ => by simp [Block.beq]
  | .streamB _, .pageChooser => by simp [Block.beq]
  | .streamB _, .richText => by simp [Block.beq]
  | .streamB _, .structB _ => by simp [Block.beq]
  | .streamB _, .charB _ => by simp [Block.beq]
  | .charB _, .pageChooser => by simp [Block.beq]
  | .charB _, .richText => by simp [Block.beq]
  | .charB _, .structB _ => by simp [Block.beq]
  | .charB _, .streamB _ => by simp [Block.beq]

/-- Block.beqPairs decides propositional equality. -/
theorem blockBeqPairs_iff : ∀ (a b : List (String × Block)),
    Block.beqPairs a b = true ↔ a = b
  | [], [] => by simp [Block.beqPairs]
  | [], _ :: _ => by simp [Block.beqPairs]
  | _ :: _, [] => by simp [Block.beqPairs]
  | (n, x) :: xs, (m, y) :: ys => by
      simp only [Block.beqPairs, Bool.and_eq_true, beq_iff_eq, List.cons.injEq, Prod.mk.injEq,
        blockBeq_iff x y, blockBeqPairs_iff xs ys]
      try tauto

end

instance : DecidableEq Block := fun a b => decidable_of_iff _ (blockBeq_iff a b)

/-- A dynamically-typed Python value as handled by importing.py: None, int,
str, list, dict (string keys suffice for the interchange document), a Wagtail
block-definition object, or a Wagtail StreamValue object (which carries its
stream_block definition and its stream_data). -/
inductive PyVal where
  | none
  | int (n : Int)
  | str (s : String)
  | list (xs : List PyVal)
  | dict (entries : List (String × PyVal))
  | block (b : Block)
  | streamVal (b : Block) (data : PyVal)

mutual

/-- Structural equality test for PyVal, mirroring Python == on these values. -/
def PyVal.beq : PyVal → PyVal → Bool
  | .none, .none => true
  | .int a, .int b => a == b
  | .str a, .str b => a == b
  | .list xs, .list ys => PyVal.beqList xs ys
  | .dict es, .dict fs => PyVal.beqEntries es fs
  | .block a, .block b => Block.beq a b
  | .streamVal a x, .streamVal b y => Block.beq a b && PyVal.beq x y
  | _, _ => false

/-- Structural equality test for PyVal lists. -/
def PyVal.beqList : List PyVal → List PyVal → Bool
  | [], [] => true
  | x :: xs, y :: ys => PyVal.beq x y && PyVal.beqList xs ys
  | _, _ => false

/-- Structural equality test for PyVal dict-entry lists. -/
def PyVal.beqEntries : List (String × PyVal) → List (String × PyVal) → Bool
  | [], [] => true
  | (n, x) :: xs, (m, y) :: ys => n == m && PyVal.beq x y && PyVal.beqEntries xs ys
  | _, _ => false

end

mutual

/-- PyVal.beq decides propositional equality. -/
theorem pyValBeq_iff : ∀ (a b : PyVal), PyVal.beq a b = true ↔ a = b
  | .none, .none => by simp [PyVal.beq]
  | .int a, .int b => by simp [PyVal.beq]
  | .str a, .str b => by simp [PyVal.beq]
  | .list xs, .list ys => by
      simp only [PyVal.beq, PyVal.list.injEq]
      exact pyValBeqList_iff xs ys
  | .dict es, .dict fs => by
      simp only [PyVal.beq, PyVal.dict.injEq]
      exact pyValBeqEntries_iff es fs
  | .block a, .block b => by
      simp only [PyVal.beq, PyVal.block.injEq]
      exact blockBeq_iff a b
  | .streamVal a x, .streamVal b y => by
      simp only [PyVal.beq, Bool.and_eq_true, PyVal.streamVal.injEq,
        blockBeq_iff a b, pyValBeq_iff x y]
  | .none, .int _ => by simp [PyVal.beq]
  | .none, .str _ => by simp [PyVal.beq]
  | .none, .list _ => by simp [PyVal.beq]
  | .none, .dict _ => by simp [PyVal.beq]
  | .none, .block _ => by simp [PyVal.beq]
  | .none, .streamVal _ _ => by simp [PyVal.beq]
  | .int _, .none => by simp [PyVal.beq]
  | .int _, .str _ => by simp [PyVal.beq]
  | .int _, .list _ => by simp [PyVal.beq]
  | .int _, .dict _ => by simp [PyVal.beq]
  | .int _, .block _ => by simp [PyVal.beq]
  | .int _, .streamVal _ _ => by simp [PyVal.beq]
  | .str _, .none => by simp [PyVal.beq]
  | .str _, .int _ => by simp [PyVal.beq]
  | .str _, .list _ => by simp [PyVal.beq]
  | .str _, .dict _ => by simp [PyVal.beq]
  | .str _, .block _ => by simp [PyVal.beq]
  | .str _, .streamVal _ _ => by simp [PyVal.beq]
  | .list _, .none => by simp [PyVal.beq]
  | .list _, .int _ => by simp [PyVal.beq]
  | .list _, .str _ => by simp [PyVal.beq]
  | .list _, .dict _ => by simp [PyVal.beq]
  | .list _, .block _ => by simp [PyVal.beq]
  | .list _, .streamVal _ _ => by simp [PyVal.beq]
  | .dict _, .none => by simp [PyVal.beq]
  | .dict _, .int _ => by simp [PyVal.beq]
  | .dict _, .str _ => by simp [PyVal.beq]
  | .dict _, .list _ => by simp [PyVal.beq]
  | .dict _, .block _ => by simp [PyVal.beq]
  | .dict _, .streamVal _ _ => by simp [PyVal.beq]
  | .block _, .none => by simp [PyVal.beq]
  | .block _, .int _ => by simp [PyVal.beq]
  | .block _, .str _ => by simp [PyVal.beq]
  | .block _, .list _ => by simp [PyVal.beq]
  | .block _, .dict _ => by simp [PyVal.beq]
  | .block _, .streamVal _ _ => by simp [PyVal.beq]
  | .streamVal _ _, .none => by simp [PyVal.beq]
  | .streamVal _ _, .int _ => by simp [PyVal.beq]
  | .streamVal _ _, .str _ => by simp [PyVal.beq]
  | .streamVal _ _, .list _ => by simp [PyVal.beq]
  | .streamVal _ _, .dict _ => by simp [PyVal.beq]
  | .streamVal _ _, .block _ => by simp [PyVal.beq]

/-- PyVal.beqList decides propositional equality. -/
theorem pyValBeqList_iff : ∀ (a b : List PyVal), PyVal.beqList a b = true ↔ a = b
  | [], [] => by simp [PyVal.beqList]
  | [], _ :: _ => by simp [PyVal.beqList]
  | _ :: _, [] => by simp [PyVal.beqList]
  | x :: xs, y :: ys => by
      simp only [PyVal.beqList, Bool.and_eq_true, List.cons.injEq,
        pyValBeq_iff x y, pyValBeqList_iff xs ys]

/-- PyVal.beqEntries decides propositional equality. -/
theorem pyValBeqEntries_iff : ∀ (a b : List (String × PyVal)),
    PyVal.beqEntries a b = true ↔ a = b
  | [], [] => by simp [PyVal.beqEntries]
  | [], _ :: _ => by simp [PyVal.beqEntries]
  | _ :: _, [] => by simp [PyVal.beqEntries]
  | (n, x) :: xs, (m, y) :: ys => by
      simp only [PyVal.beqEntries, Bool.and_eq_true, beq_iff_eq, List.cons.injEq, Prod.mk.injEq,
        pyValBeq_iff x y, pyValBeqEntries_iff xs ys]
      try tauto

end

instance : DecidableEq PyVal := fun a b => decidable_of_iff _ (pyValBeq_iff a b)

/-- A node of the parsed rich-text markup: a text node or an element with a
tag name, attributes (in document order) and child nodes. -/
inductive XNode where
  | text (s : String)
  | elem (tag : String) (attrs : List (String × String)) (children : List XNode)

mutual

/-- Structural equality test for XNode. -/
def XNode.beq : XNode → XNode → Bool
  | .text s, .text t => s == t
  | .elem tag attrs cs, .elem tag2 attrs2 cs2 =>
      tag == tag2 && attrs == attrs2 && XNode.beqList cs cs2
  | _, _ => false

/-- Structural equality test for XNode lists. -/
def XNode.beqList : List XNode → List XNode → Bool
  | [], [] => true
  | x :: xs, y :: ys => XNode.beq x y && XNode.beqList xs ys
  | _, _ => false

end

mutual

/-- XNode.beq decides propositional equality. -/
theorem xnodeBeq_iff : ∀ (a b : XNode), XNode.beq a b = true ↔ a = b
  | .text s, .text t => by simp [XNode.beq]
  | .elem tag attrs cs, .elem tag2 attrs2 cs2 => by
      simp only [XNode.beq, Bool.and_eq_true, beq_iff_eq, XNode.elem.injEq,
        xnodeBeqList_iff cs cs2]
      try tauto
  | .text _, .elem _ _ _ => by simp [XNode.beq]
  | .elem _ _ _, .text _ => by simp [XNode.beq]

/-- XNode.beqList decides propositional equality. -/
theorem xnodeBeqList_iff : ∀ (a b : List XNode), XNode.beqList a b = true ↔ a = b
  | [], [] => by simp [XNode.beqList]
  | [], _ :: _ => by simp [XNode.beqList]
  | _ :: _, [] => by simp [XNode.beqList]
  | x :: xs, y :: ys => by
      simp only [XNode.beqList, Bool.and_eq_true, List.cons.injEq,
        xnodeBeq_iff x y, xnodeBeqList_iff xs ys]

end

instance : DecidableEq XNode := fun a b => decidable_of_iff _ (xnodeBeq_iff a b)

/- Python dict model: association lists with insert-or-overwrite update.
Insertion order is preserved and an overwrite keeps the key's position,
exactly as Python dicts behave. -/

/-- Python dict lookup d[k] (as an Option; callers raise KeyError on none). -/
def dlookup {κ α : Type} [DecidableEq κ] : List (κ × α) → κ → Option α
  | [], _ => Option.none
  | (k', v) :: t, k => if k' = k then some v else dlookup t k

/-- Python dict membership test, `k in d`. -/
def dcontains {κ α : Type} [DecidableEq κ] (d : List (κ × α)) (k : κ) : Bool :=
  (dlookup d k).isSome

/-- Python dict assignment d[k] = v: overwrite in place or append. -/
def dinsert {κ α : Type} [DecidableEq κ] : List (κ × α) → κ → α → List (κ × α)
  | [], k, v => [(k, v)]
  | (k', v') :: t, k, v => if k' = k then (k', v) :: t else (k', v') :: dinsert t k v

/-- Keys of a dict, in insertion order. -/
def dkeys {κ α : Type} (d : List (κ × α)) : List κ := d.map Prod.fst

/-- The accumulated warnings/errors/failures dict threaded through the
foreign-key rewriting functions (always exactly these three keys). -/
structure RW where
  warnings : List String
  errors : List String
  failures : List String
  deriving DecidableEq

/-- The empty result dict, as initialized at the top of each rewriter. -/
def RW.empty : RW := ⟨[], [], []⟩

/-- Merging of results: for key in res, result[key] += res[key]. -/
def RW.app (a b : RW) : RW :=
  ⟨a.warnings ++ b.warnings, a.errors ++ b.errors, a.failures ++ b.failures⟩

/-- The result dict of import_pages_content and import_pages_by_url, which
additionally carries the list of imported-page summary strings. -/
structure IR where
  warnings : List String
  errors : List String
  failures : List String
  pages : List String
  deriving DecidableEq

/-- Decimal digits of a natural number, most significant first; fuel-based so
that the definition reduces in the kernel (fuel ≥ n suffices). -/
def natStrAux : Nat → Nat → List Char
  | 0, _ => []
  | fuel + 1, n =>
      if n < 10 then [Nat.digitChar n]
      else natStrAux fuel (n / 10) ++ [Nat.digitChar (n % 10)]

/-- Python str() of a non-negative int. -/
def pyNatStr (n : Nat) : String := ⟨natStrAux (n + 1) n⟩

/-- Python str() of an int (decimal, with a leading minus sign if negative). -/
def pyIntStr : Int → String
  | .ofNat n => pyNatStr n
  | .negSucc m => "-" ++ pyNatStr (m + 1)

/-- Numeric value of a list of decimal digit characters. -/
def digitsVal (cs : List Char) : Nat :=
  cs.foldl (fun a c => a * 10 + (c.toNat - 48)) 0

/-- Parse a nonempty all-digit character list, else none. -/
def pyNatParseChars (ds : List Char) : Option Nat :=
  if ds.isEmpty then Option.none
  else if ds.all Char.isDigit then some (digitsVal ds) else Option.none

/-- Model of Python int(s) on the strings produced by str(int): an optional
minus sign followed by decimal digits.  (Python additionally tolerates
surrounding whitespace, a plus sign and digit-group underscores; page
identifiers embedded in rich text never use those forms.) -/
def pyIntParse (s : String) : Option Int :=
  match s.data with
  | [] => Option.none
  | c :: cs =>
      if c = '-' then (pyNatParseChars cs).map (fun n => -(n : Int))
      else (pyNatParseChars (c :: cs)).map (fun n => (n : Int))

theorem digitChar_isDigit {n : Nat} (h : n < 10) : (Nat.digitChar n).isDigit = true := by
  interval_cases n <;> decide

theorem digitChar_toNat {n : Nat} (h : n < 10) : (Nat.digitChar n).toNat - 48 = n := by
  interval_cases n <;> decide

theorem natStrAux_ne_nil : ∀ (fuel n : Nat), n < fuel → natStrAux fuel n ≠ [] := by
  intro fuel
  induction fuel with
  | zero => intro n h; omega
  | succ f _ih =>
      intro n _h
      unfold natStrAux
      split
      · simp
      · simp

theorem natStrAux_all_digits : ∀ (fuel n : Nat), n < fuel →
    (natStrAux fuel n).all Char.isDigit = true := by
  intro fuel
  induction fuel with
  | zero => intro n h; omega
  | succ f ih =>
      intro n h
      unfold natStrAux
      split
      · next h10 => simp [digitChar_isDigit h10]
      · next h10 =>
          rw [List.all_append]
          have hd : n / 10 < f := by
            have := Nat.div_lt_self (by omega : 0 < n) (by omega : 1 < 10)
            omega
          have hm : n % 10 < 10 := Nat.mod_lt _ (by omega)
          simp [ih _ hd, digitChar_isDigit hm]

theorem digitsVal_append_digit (xs : List Char) (c : Char) :
    digitsVal (xs ++ [c]) = digitsVal xs * 10 + (c.toNat - 48) := by
  simp [digitsVal, List.foldl_append]

theorem digitsVal_natStrAux : ∀ (fuel n : Nat), n < fuel →
    digitsVal (natStrAux fuel n) = n := by
  intro fuel
  induction fuel with
  | zero => intro n h; omega
  | succ f ih =>
      intro n h
      unfold natStrAux
      split
      · next h10 => simp [digitsVal, digitChar_toNat h10]
      · next h10 =>
          have hd : n / 10 < f := by
            have := Nat.div_lt_self (by omega : 0 < n) (by omega : 1 < 10)
            omega
          have hm : n % 10 < 10 := Nat.mod_lt _ (by omega)
          rw [digitsVal_append_digit, ih _ hd, digitChar_toNat hm]
          omega

theorem pyNatParseChars_natStrAux (n : Nat) :
    pyNatParseChars (natStrAux (n + 1) n) = some n := by
  have hne := natStrAux_ne_nil (n + 1) n (by omega)
  have hall := natStrAux_all_digits (n + 1) n (by omega)
  have hval := digitsVal_natStrAux (n + 1) n (by omega)
  unfold pyNatParseChars
  rw [if_neg (by simpa [List.isEmpty_iff] using hne), if_pos hall, hval]

theorem natStrAux_head_ne_minus (fuel n : Nat) (h : n < fuel) :
    ∀ c cs, natStrAux fuel n = c :: cs → c ≠ '-' := by
  intro c cs hcc
  have hall := natStrAux_all_digits fuel n h
  rw [hcc] at hall
  simp only [List.all_cons, Bool.and_eq_true] at hall
  intro habs
  rw [habs] at hall
  simp at hall

/-- Round trip: Python int(str(i)) = i for every int i. -/
theorem pyIntParse_pyIntStr (i : Int) : pyIntParse (pyIntStr i) = some i := by
  match i with
  | .ofNat n =>
      have hne := natStrAux_ne_nil (n + 1) n (by omega)
      obtain ⟨c, cs, hcc⟩ := List.exists_cons_of_ne_nil hne
      have hcm := natStrAux_head_ne_minus (n + 1) n (by omega) c cs hcc
      have : pyIntParse (pyIntStr (.ofNat n)) =
          (pyNatParseChars (c :: cs)).map (fun n => (n : Int)) := by
        simp only [pyIntParse, pyIntStr, pyNatStr, hcc]
        rw [if_neg hcm]
      rw [this, ← hcc, pyNatParseChars_natStrAux]
      simp
  | .negSucc m =>
      have hdata : (pyIntStr (.negSucc m)).data = '-' :: natStrAux (m + 2) (m + 1) := by
        simp [pyIntStr, pyNatStr, String.data_append]
      simp only [pyIntParse, hdata]
      rw [pyNatParseChars_natStrAux]
      simp [Int.negSucc_eq]
      try omega

/-- Stable model of the repr of a Wagtail block instance (the real repr
contains a memory address; warnings only need a stable token). -/
def blockRepr : Block → String
  | .pageChooser => "<PageChooserBlock>"
  | .richText => "<RichTextBlock>"
  | .structB _ => "<StructBlock>"
  | .streamB _ => "<StreamBlock>"
  | .charB _ => "<CharBlock>"

/-- Model of Python repr() on the values that reach %r in messages. -/
def pyRepr : PyVal → String
  | .none => "None"
  | .int n => pyIntStr n
  | .str s => "'" ++ s ++ "'"
  | .list _ => "[...]"
  | .dict _ => "\x7b...\x7d"
  | .block b => blockRepr b
  | .streamVal _ _ => "<StreamValue>"

/-- Model of Python str() on the values that reach %s in messages. -/
def pyStrS : PyVal → String
  | .none => "None"
  | .int n => pyIntStr n
  | .str s => s
  | .list xs => pyRepr (.list xs)
  | .dict es => pyRepr (.dict es)
  | .block b => blockRepr b
  | .streamVal b d => pyRepr (.streamVal b d)

/-- Model of the %d conversion: requires a number, else TypeError. -/
def pyFmtD : PyVal → Except PyErr String
  | .int n => .ok (pyIntStr n)
  | _ => .error (.typeError "%d format: a number is required, not str")

/- Rich-text model.  importing.py parses "<richtext>%s</richtext>" % value
with lxml.etree, rewrites anchor ids, and re-serializes with write_c14n
(inclusive XML canonicalization: no minimized/self-closing tags, attributes
sorted by name, text and attribute values entity-escaped), finally stripping
the richtext wrapper tags with re.sub.  The following embeds that parser and
canonical serializer.  (Carriage-return/tab numeric character references,
which c14n would also escape, are not modelled; none of the analyzed
properties involve them.) -/

/-- Characters accepted in element/attribute names. -/
def isNameChar (c : Char) : Bool :=
  c.isAlphanum || c = '-' || c = '_' || c = ':' || c = '.'

/-- Canonical escaping of one text character. -/
def escTextChar : Char → List Char
  | '&' => "&amp;".data
  | '<' => "&lt;".data
  | '>' => "&gt;".data
  | c => [c]

/-- Canonical escaping of one attribute-value character. -/
def escAttrChar : Char → List Char
  | '&' => "&amp;".data
  | '<' => "&lt;".data
  | '"' => "&quot;".data
  | c => [c]

/-- Canonical escaping of a text node. -/
def escText (s : String) : List Char := (s.data.map escTextChar).flatten

/-- Canonical escaping of an attribute value. -/
def escAttr (s : String) : List Char := (s.data.map escAttrChar).flatten

/-- Lexicographic less-or-equal on character lists (kernel-reducible). -/
def charsLeB : List Char → List Char → Bool
  | [], _ => true
  | _ :: _, [] => false
  | a :: as, b :: bs => if a < b then true else if b < a then false else charsLeB as bs

/-- Comparison of attributes by attribute name. -/
def attrLeB (a b : String × String) : Bool := charsLeB a.1.data b.1.data

/-- Insert an attribute into a name-sorted attribute list (stable). -/
def insAttr (x : String × String) : List (String × String) → List (String × String)
  | [] => [x]
  | y :: ys => if attrLeB x y then x :: y :: ys else y :: insAttr x ys

/-- Canonical attribute order: insertion sort by attribute name. -/
def sortAttrs : List (String × String) → List (String × String)
  | [] => []
  | x :: xs => insAttr x (sortAttrs xs)

/-- Render one attribute as space name="escaped value". -/
def renderAttr (a : String × String) : List Char :=
  (' ' :: a.1.data) ++ ('=' :: '"' :: escAttr a.2) ++ ['"']

mutual

/-- Canonical (write_c14n) serialization of a node: full open/close tags,
attributes sorted, no self-closing forms. -/
def c14nNode : XNode → List Char
  | .text s => escText s
  | .elem tag attrs children =>
      ('<' :: tag.data) ++ ((sortAttrs attrs).map renderAttr).flatten ++ ['>'] ++
        c14nForest children ++ ('<' :: '/' :: tag.data) ++ ['>']

/-- Canonical serialization of a node list. -/
def c14nForest : List XNode → List Char
  | [] => []
  | n :: t => c14nNode n ++ c14nForest t

end

/-- Model of re.sub applied to the serialized document, removing every
occurrence of the richtext open/close wrapper tags in one left-to-right
pass (non-overlapping matches, as re.sub does); the Nat argument counts
characters of a recognized tag still to be skipped. -/
def stripGo : Nat → List Char → List Char
  | _, [] => []
  | skip + 1, _ :: rest => stripGo skip rest
  | 0, c :: rest =>
      if (c :: rest).take 11 = ['<', '/', 'r', 'i', 'c', 'h', 't', 'e', 'x', 't', '>'] then
        stripGo 10 rest
      else if (c :: rest).take 10 = ['<', 'r', 'i', 'c', 'h', 't', 'e', 'x', 't', '>'] then
        stripGo 9 rest
      else c :: stripGo 0 rest

/-- Entry point of the scan at skip state zero. -/
def stripRichtextTags (xs : List Char) : List Char := stripGo 0 xs

/-- Canonicalization ensures that element tags are not minimized
(richtext_element_to_string in importing.py). -/
def richtext_element_to_string (element : XNode) : String :=
  ⟨stripRichtextTags (c14nNode element)⟩

/-- Serialization of a fragment the way update_page_fks_in_rich_text emits
it: canonicalize the richtext-wrapped document, then strip the wrapper. -/
def serializeFragment (ns : List XNode) : String :=
  richtext_element_to_string (.elem "richtext" [] ns)

/-- Lex a nonempty run of name characters. -/
def lexName (cs : List Char) : Option (String × List Char) :=
  let run := cs.takeWhile isNameChar
  if run.isEmpty then Option.none
  else some (⟨run⟩, cs.dropWhile isNameChar)

/-- Unescape entity references in a raw character run. -/
def unescapeChars : List Char → Option (List Char)
  | [] => some []
  | '&' :: 'a' :: 'm' :: 'p' :: ';' :: rest => ('&' :: ·) <$> unescapeChars rest
  | '&' :: 'l' :: 't' :: ';' :: rest => ('<' :: ·) <$> unescapeChars rest
  | '&' :: 'g' :: 't' :: ';' :: rest => ('>' :: ·) <$> unescapeChars rest
  | '&' :: 'q' :: 'u' :: 'o' :: 't' :: ';' :: rest => ('"' :: ·) <$> unescapeChars rest
  | '&' :: _ => Option.none
  | c :: rest => (c :: ·) <$> unescapeChars rest

/-- Parse a run of attributes; stops before '>' or '/'.  Fuel-based so the
definition reduces in the kernel. -/
def parseAttrsAux : Nat → List Char → Option (List (String × String) × List Char)
  | 0, _ => Option.none
  | fuel + 1, cs =>
      let cs1 := cs.dropWhile (fun c => c = ' ')
      match cs1 with
      | [] => Option.none
      | '>' :: _ => some ([], cs1)
      | '/' :: _ => some ([], cs1)
      | _ => do
          let (name, cs2) ← lexName cs1
          match cs2 with
          | '=' :: '"' :: cs3 => do
              let raw := cs3.takeWhile (fun c => c ≠ '"')
              let v ← unescapeChars raw
              match cs3.dropWhile (fun c => c ≠ '"') with
              | '"' :: cs4 => do
                  let (attrs, cs5) ← parseAttrsAux fuel cs4
                  some ((name, ⟨v⟩) :: attrs, cs5)
              | _ => Option.none
          | _ => Option.none

/-- Parse a list of sibling nodes; stops at end of input or before a
closing tag.  Fuel-based so the definition reduces in the kernel. -/
def parseNodesAux : Nat → List Char → Option (List XNode × List Char)
  | 0, _ => Option.none
  | fuel + 1, cs =>
      match cs with
      | [] => some ([], [])
      | '<' :: '/' :: rest => some ([], '<' :: '/' :: rest)
      | '<' :: rest => do
          let (name, cs1) ← lexName rest
          let (attrs, cs2) ← parseAttrsAux (fuel + 1) cs1
          if (attrs.map Prod.fst).Nodup then
            match cs2 with
            | '/' :: '>' :: cs3 => do
                let (siblings, cs4) ← parseNodesAux fuel cs3
                some (XNode.elem name attrs [] :: siblings, cs4)
            | '>' :: cs3 => do
                let (children, cs4) ← parseNodesAux fuel cs3
                match cs4 with
                | '<' :: '/' :: cs5 => do
                    let (cname, cs6) ← lexName cs5
                    if cname = name then
                      match cs6 with
                      | '>' :: cs7 => do
                          let (siblings, cs8) ← parseNodesAux fuel cs7
                          some (XNode.elem name attrs children :: siblings, cs8)
                      | _ => Option.none
                    else Option.none
                | _ => Option.none
            | _ => Option.none
          else Option.none
      | _ => do
          let run := cs.takeWhile (fun c => c ≠ '<')
          let txt ← unescapeChars run
          let (siblings, rest2) ← parseNodesAux fuel (cs.dropWhile (fun c => c ≠ '<'))
          some (XNode.text ⟨txt⟩ :: siblings, rest2)

/-- Parse a rich-text fragment (the lxml parse of the richtext-wrapped
value): all input must be consumed, duplicate attributes are rejected. -/
def parseFragment (s : String) : Option (List XNode) :=
  match parseNodesAux (s.length + 2) s.data with
  | some (ns, []) => some ns
  | _ => Option.none

/-- Discriminator for text nodes (used in the adjacency condition). -/
def isTextNode : XNode → Bool
  | .text _ => true
  | .elem _ _ _ => false

mutual

/-- Syntactic well-formedness of a node, sufficient for the serialize/parse
roundtrip: nonempty name-character tags other than richtext, well-named
duplicate-free attributes, nonempty text. -/
def wfN : XNode → Bool
  | .text s => !s.data.isEmpty
  | .elem tag attrs children =>
      !tag.data.isEmpty && tag.data.all isNameChar && !(tag == "richtext") &&
      attrs.all (fun a => !a.1.data.isEmpty && a.1.data.all isNameChar) &&
      decide ((attrs.map Prod.fst).Nodup) && wfF children

/-- Well-formedness of a forest: each node well-formed and no two adjacent
text nodes (which reparsing would merge). -/
def wfF : List XNode → Bool
  | [] => true
  | [n] => wfN n
  | n :: m :: t => wfN n && !(isTextNode n && isTextNode m) && wfF (m :: t)

end

mutual

/-- Node count bound used as parser fuel. -/
def sizeN : XNode → Nat
  | .text _ => 1
  | .elem _ attrs children => 2 + attrs.length + sizeF children

/-- Forest count bound used as parser fuel. -/
def sizeF : List XNode → Nat
  | [] => 0
  | n :: t => sizeN n + sizeF t

end

/-- The identifier map: a Python dict from old page id to new page id
(PyVal keys/values, exactly as built from the interchange document). -/
abbrev IdMap := List (PyVal × PyVal)

/-- The warning emitted for an unresolved page link in rich text
("Page(id=%d) not found in Page(id=%d).%s in RichText"). -/
def mkRtWarn (link_page_id : Int) (page_id field_name : PyVal) : Except PyErr String := do
  let d ← pyFmtD page_id
  .ok ("Page(id=" ++ pyIntStr link_page_id ++ ") not found in Page(id=" ++ d ++ ")." ++
       pyStrS field_name ++ " in RichText")

/-- Document-order test for the xpath a[@id and @linktype="page"]. -/
def isPageLinkAnchor (tag : String) (attrs : List (String × String)) : Bool :=
  tag == "a" && (dlookup attrs "id").isSome && ((dlookup attrs "linktype") == some "page")

mutual

/-- Rewrite the page-link anchors of one node (the per-element body of the
xpath loop in update_page_fks_in_rich_text): remap the id if it is in the
map, else append one warning and leave the anchor unchanged. -/
def rtNode (m : IdMap) (page_id field_name : PyVal) :
    XNode → Except PyErr (XNode × List String)
  | .text s => .ok (.text s, [])
  | .elem tag attrs children =>
      if isPageLinkAnchor tag attrs then
        match dlookup attrs "id" with
        | Option.none => .error (.valueError "impossible: id attribute vanished")
        | some idstr =>
            match pyIntParse idstr with
            | Option.none =>
                .error (.valueError ("invalid literal for int() with base 10: " ++ idstr))
            | some link_page_id =>
                match dlookup m (.int link_page_id) with
                | some newv => do
                    let (children2, ws) ← rtForestGo m page_id field_name children
                    .ok (.elem tag (dinsert attrs "id" (pyStrS newv)) children2, ws)
                | Option.none => do
                    let w ← mkRtWarn link_page_id page_id field_name
                    let (children2, ws) ← rtForestGo m page_id field_name children
                    .ok (.elem tag attrs children2, w :: ws)
      else do
        let (children2, ws) ← rtForestGo m page_id field_name children
        .ok (.elem tag attrs children2, ws)

/-- Rewrite the page-link anchors of a node list, in document order. -/
def rtForestGo (m : IdMap) (page_id field_name : PyVal) :
    List XNode → Except PyErr (List XNode × List String)
  | [] => .ok ([], [])
  | n :: t => do
      let (n2, ws1) ← rtNode m page_id field_name n
      let (t2, ws2) ← rtForestGo m page_id field_name t
      .ok (n2 :: t2, ws1 ++ ws2)

end

/-- Find page ids in RichText value and update according to the page_id_map
(update_page_fks_in_rich_text in importing.py). -/
def update_page_fks_in_rich_text (value page_id field_name : PyVal) (page_id_map : IdMap) :
    Except PyErr (PyVal × RW) :=
  match parseFragment (pyStrS value) with
  | Option.none => .error (.xmlSyntaxError "lxml could not parse the rich-text value")
  | some ns => do
      let (ns2, ws) ← rtForestGo page_id_map page_id field_name ns
      .ok (.str (richtext_element_to_string (.elem "richtext" [] ns2)), ⟨ws, [], []⟩)

/- Block-tree rewriting.  The Python functions are dynamically typed: the
struct-block branch passes its arguments to update_page_fks_in_block in a
different order than the signature declares, so every parameter that can
receive a swapped value is embedded as PyVal. -/

/-- The child_blocks attribute of a block definition, when it has one. -/
def Block.childList : Block → Option (List (String × Block))
  | .structB cbs => some cbs
  | .streamB cbs => some cbs
  | _ => Option.none

/-- Python dict subscript d[k] for string keys, raising KeyError/TypeError. -/
def pyGetItem (v : PyVal) (k : String) : Except PyErr PyVal :=
  match v with
  | .dict es =>
      match dlookup es k with
      | some x => .ok x
      | Option.none => .error (.keyError k)
  | _ => .error (.typeError "object is not subscriptable")

/-- Python dict item assignment d[k] = x. -/
def pySetItem (v : PyVal) (k : String) (x : PyVal) : Except PyErr PyVal :=
  match v with
  | .dict es => .ok (.dict (dinsert es k x))
  | _ => .error (.typeError "object does not support item assignment")

mutual

/-- Executable size of a block definition (termination measure only). -/
def blockSize : Block → Nat
  | .structB cbs => 1 + blockPairsSize cbs
  | .streamB cbs => 1 + blockPairsSize cbs
  | _ => 1

/-- Executable size of a child-block list. -/
def blockPairsSize : List (String × Block) → Nat
  | [] => 0
  | (_, b) :: t => 1 + blockSize b + blockPairsSize t

end

theorem dlookup_blockPairsSize {cbs : List (String × Block)} {k : String} {b : Block}
    (h : dlookup cbs k = some b) : blockSize b ≤ blockPairsSize cbs := by
  induction cbs with
  | nil => simp [dlookup] at h
  | cons hd t ih =>
      obtain ⟨k', v⟩ := hd
      simp only [dlookup] at h
      split at h
      · cases h
        simp only [blockPairsSize]
        omega
      · have := ih h
        simp only [blockPairsSize]
        omega

theorem childList_blockSize {b : Block} {cbs : List (String × Block)}
    (h : Block.childList b = some cbs) : blockSize b = 1 + blockPairsSize cbs := by
  cases b <;> simp_all [Block.childList, blockSize]

/-- Size measure used for termination of the mutual rewriters: only a block
definition contributes (the schema shrinks at every real recursive step). -/
def pvMeasure : PyVal → Nat
  | .block b => blockSize b + 1
  | _ => 0

theorem pvMeasure_child_lt {b : Block} {cbs : List (String × Block)} {k : String}
    {child : Block} (hc : Block.childList b = some cbs) (hl : dlookup cbs k = some child) :
    pvMeasure (.block child) < pvMeasure (.block b) := by
  have h1 := dlookup_blockPairsSize hl
  have h2 := childList_blockSize hc
  simp only [pvMeasure]
  omega

/-- The membership-plus-lookup test block_data['type'] in
stream_block.child_blocks: a string tag is looked up among the declared
child blocks, any other tag value is not found. -/
def tagLookup (btype : PyVal) (cbs : List (String × Block)) : Option Block :=
  match btype with
  | .str t => dlookup cbs t
  | _ => Option.none

theorem tagLookup_some {btype : PyVal} {cbs : List (String × Block)} {child : Block}
    (h : tagLookup btype cbs = some child) : ∃ t, dlookup cbs t = some child := by
  cases btype <;> simp [tagLookup] at h
  exact ⟨_, h⟩

mutual

/-- Update the page foreign keys in the StreamField block
(update_page_fks_in_block in importing.py): dispatch on the dynamic type of
the block-definition argument; unknown kinds pass through unchanged. -/
def update_page_fks_in_block (block_data blockArg page_id field_name : PyVal)
    (page_id_map : IdMap) : Except PyErr (PyVal × RW) :=
  match blockArg with
  | .block .pageChooser => do
      let link_page_id ← pyGetItem block_data "value"
      match dlookup page_id_map link_page_id with
      | some newv => do
          let bd2 ← pySetItem block_data "value" newv
          .ok (bd2, RW.empty)
      | Option.none => do
          let d1 ← pyFmtD link_page_id
          let d2 ← pyFmtD page_id
          .ok (block_data,
            ⟨["Page(id=" ++ d1 ++ ") not found in Page(id=" ++ d2 ++ ")." ++
              pyStrS field_name ++ ", in StreamBlock=" ++ blockRepr .pageChooser], [], []⟩)
  | .block .richText => do
      let v ← pyGetItem block_data "value"
      let (v2, res) ← update_page_fks_in_rich_text v page_id field_name page_id_map
      let bd2 ← pySetItem block_data "value" v2
      .ok (bd2, res)
  | .block (.structB cbs) =>
      update_page_fks_in_struct_block block_data (.block (.structB cbs)) page_id
        field_name page_id_map
  | .block (.streamB cbs) => do
      let v ← pyGetItem block_data "value"
      let (v2, res) ← update_page_fks_in_stream_data v (.block (.streamB cbs)) page_id
        field_name page_id_map
      let bd2 ← pySetItem block_data "value" v2
      .ok (bd2, res)
  | _ => .ok (block_data, RW.empty)
termination_by (pvMeasure blockArg + pvMeasure field_name, 2, 0)

/-- The struct-block case (update_page_fks_in_struct_block in importing.py):
iterate the named children of block_data's value. -/
def update_page_fks_in_struct_block (block_data blockArg page_id field_name : PyVal)
    (page_id_map : IdMap) : Except PyErr (PyVal × RW) := do
  let v ← pyGetItem block_data "value"
  match v with
  | .dict entries => do
      let (entries2, res) ← update_struct_items block_data blockArg page_id field_name
        page_id_map (dkeys entries) entries
      let bd2 ← pySetItem block_data "value" (.dict entries2)
      .ok (bd2, res)
  | _ => .error (.typeError "struct block value is not a mapping")
termination_by (pvMeasure blockArg + pvMeasure field_name, 1, 0)

/-- One pass of the for-name loop of update_page_fks_in_struct_block.  For a
declared child the source line is
update_page_fks_in_block(page_id, field_name, value, child_blocks[name],
page_id_map), i.e. the arguments are passed in that (swapped) order. -/
def update_struct_items (block_data blockArg page_id field_name : PyVal)
    (page_id_map : IdMap) : List String → List (String × PyVal) →
    Except PyErr (List (String × PyVal) × RW)
  | [], entries => .ok (entries, RW.empty)
  | name :: names, entries =>
      match blockArg with
      | .block b =>
          match hcb : Block.childList b with
          | Option.none => .error (.attributeError "object has no attribute child_blocks")
          | some cbs =>
              match hch : dlookup cbs name with
              | some child => do
                  let cur ← (match dlookup entries name with
                    | some c => Except.ok c
                    | Option.none => Except.error (PyErr.keyError name))
                  let (newv, res) ← update_page_fks_in_block page_id field_name cur
                    (.block child) page_id_map
                  let entries2 := dinsert entries name newv
                  let (rest, res2) ← update_struct_items block_data (.block b) page_id
                    field_name page_id_map names entries2
                  .ok (rest, RW.app res res2)
              | Option.none => do
                  let btype ← pyGetItem block_data "type"
                  let d ← pyFmtD page_id
                  let w := "Block type=" ++ pyRepr btype ++ " not found in Page(id=" ++ d ++
                    ")." ++ pyStrS field_name ++ " in StreamBlock=" ++ pyStrS blockArg
                  let (rest, res2) ← update_struct_items block_data (.block b) page_id
                    field_name page_id_map names entries
                  .ok (rest, RW.app ⟨[w], [], []⟩ res2)
      | _ => .error (.attributeError "object has no attribute child_blocks")
termination_by names _ => (pvMeasure blockArg + pvMeasure field_name, 0, names.length)
decreasing_by
  all_goals
    first
      | decreasing_tactic
      | (have hlt := pvMeasure_child_lt hcb hch
         decreasing_tactic)

/-- Iterate stream_data updating page foreign keys according to the
page_id_map (update_page_fks_in_stream_data in importing.py). -/
def update_page_fks_in_stream_data (stream_data blockArg page_id field_name : PyVal)
    (page_id_map : IdMap) : Except PyErr (PyVal × RW) :=
  match stream_data with
  | .list items => do
      let (items2, res) ← update_stream_items blockArg page_id field_name page_id_map items
      .ok (.list items2, res)
  | _ => .error (.typeError "stream data is not iterable as a stream")
termination_by (pvMeasure blockArg + pvMeasure field_name, 1, 0)

/-- One pass of the enumerate loop of update_page_fks_in_stream_data. -/
def update_stream_items (blockArg page_id field_name : PyVal) (page_id_map : IdMap) :
    List PyVal → Except PyErr (List PyVal × RW)
  | [] => .ok ([], RW.empty)
  | bd :: rest => do
      let btype ← pyGetItem bd "type"
      match blockArg with
      | .block b =>
          match hcb : Block.childList b with
          | Option.none => .error (.attributeError "object has no attribute child_blocks")
          | some cbs =>
              match hch : tagLookup btype cbs with
              | some child => do
                  let (bd2, res) ← update_page_fks_in_block bd (.block child) page_id
                    field_name page_id_map
                  let (rest2, res2) ← update_stream_items (.block b) page_id field_name
                    page_id_map rest
                  .ok (bd2 :: rest2, RW.app res res2)
              | Option.none => do
                  let d ← pyFmtD page_id
                  let w := "Block type=" ++ pyRepr btype ++ " not found in Page(id=" ++ d ++
                    ")." ++ pyStrS field_name ++ " in StreamBlock=" ++ pyStrS blockArg
                  let (rest2, res2) ← update_stream_items (.block b) page_id field_name
                    page_id_map rest
                  .ok (bd :: rest2, RW.app ⟨[w], [], []⟩ res2)
      | _ => .error (.attributeError "object has no attribute child_blocks")
termination_by items => (pvMeasure blockArg + pvMeasure field_name, 0, items.length)
decreasing_by
  all_goals
    first
      | decreasing_tactic
      | (obtain ⟨t, ht⟩ := tagLookup_some hch
         have := pvMeasure_child_lt hcb ht
         decreasing_tactic)

end

/- Field-level updater and page-identity resolver. -/

/-- Classification of a declared model field, as tested by the elif chain of
update_page_foreign_keys: pageRel stands for a field for which
isinstance(field.__dict__.get('related_model'), Page) is true, richText for a
RichTextField, stream for a StreamField (carrying its stream_block), plain
for every other field kind. -/
inductive FieldKind where
  | plain
  | pageRel
  | richText
  | stream (stream_block : Block)
  deriving DecidableEq

/-- A declared model field: its classification and null-ability. -/
structure FieldInfo where
  kind : FieldKind
  null : Bool
  deriving DecidableEq

/-- A Django model as the importer sees it: class name, declared fields and
the field values of a freshly constructed instance. -/
structure ModelInfo where
  clsName : String
  fields : List (String × FieldInfo)
  newDict : List (String × PyVal)

/-- The external collaborators: the app registry (apps.get_model keyed by
"app_label.model"), and JSON (de)serialization. -/
structure Env where
  models : List (String × ModelInfo)
  jsonLoads : String → Except PyErr PyVal
  jsonDumps : PyVal → String

/-- Model registry lookup; none models a LookupError from apps.get_model. -/
def Env.getModel (e : Env) (key : String) : Option ModelInfo := dlookup e.models key

/-- Update the field value (a page id) according to the page_id_map, if found
(update_page_fks_in_field in importing.py).  The source function refers to
the names result, field, results and model_key, none of which is bound in the
function or any enclosing scope, so each branch raises NameError at its first
evaluation of such a name: the in-map branch rebinds value and then evaluates
`return value, result` (unbound result); the not-in-map branch first
evaluates `field.null` (unbound field). -/
def update_page_fks_in_field (value page_id field_name : PyVal) (page_id_map : IdMap) :
    Except PyErr (PyVal × RW) :=
  if dcontains page_id_map value then .error (.nameError "result")
  else .error (.nameError "field")

/-- Find page ids in StreamField value and update according to the
page_id_map (update_page_fks_in_streamfield in importing.py). -/
def update_page_fks_in_streamfield (env : Env) (value page_id field_name : PyVal)
    (page_id_map : IdMap) (page_fields : List (String × FieldInfo)) :
    Except PyErr (PyVal × RW) := do
  let fi ← (match field_name with
    | .str fn =>
        match dlookup page_fields fn with
        | some fi => Except.ok fi
        | Option.none => Except.error (PyErr.keyError fn)
    | _ => Except.error (PyErr.keyError "field name"))
  let stream_block ← (match fi.kind with
    | .stream b => Except.ok b
    | _ => Except.error (PyErr.attributeError "field object has no attribute stream_block"))
  let s ← (match value with
    | .str s => Except.ok s
    | _ => Except.error (PyErr.typeError "the JSON object must be str, bytes or bytearray"))
  let stream_data ← env.jsonLoads s
  let (stream_data2, res) ← update_page_fks_in_stream_data stream_data
    (.block stream_block) page_id field_name page_id_map
  .ok (.str (env.jsonDumps stream_data2), res)

/-- A page record of the interchange document: app_label, model and the flat
content mapping. -/
structure PageRecord where
  app_label : String
  model : String
  content : List (String × PyVal)
  deriving DecidableEq

/-- The interchange document (content.json).  Only the pages collection is
relevant to page import; snippets and images are consumed by separate
functions not under analysis. -/
structure ContentData where
  pages : List PageRecord
  deriving DecidableEq

/-- The per-field loop body of update_page_foreign_keys: iterate the items of
the page content, rewriting the fields that are declared on the model and
classified as page-fk / rich-text / stream. -/
def upfkFields (env : Env) (page_id_map : IdMap)
    (model_fields : List (String × FieldInfo)) (page_id : PyVal) :
    List (String × PyVal) → List (String × PyVal) →
    Except PyErr (List (String × PyVal) × RW)
  | [], content => .ok (content, RW.empty)
  | (field_name, value) :: rest, content =>
      match dlookup model_fields field_name with
      | Option.none => upfkFields env page_id_map model_fields page_id rest content
      | some field =>
          match field.kind with
          | .pageRel => do
              let (v2, res) ← update_page_fks_in_field value page_id (.str field_name)
                page_id_map
              let (content2, res2) ← upfkFields env page_id_map model_fields page_id rest
                (dinsert content field_name v2)
              .ok (content2, RW.app res res2)
          | .richText => do
              let (v2, res) ← update_page_fks_in_rich_text value page_id (.str field_name)
                page_id_map
              let (content2, res2) ← upfkFields env page_id_map model_fields page_id rest
                (dinsert content field_name v2)
              .ok (content2, RW.app res res2)
          | .stream _ => do
              let (v2, res) ← update_page_fks_in_streamfield env value page_id
                (.str field_name) page_id_map model_fields
              let (content2, res2) ← upfkFields env page_id_map model_fields page_id rest
                (dinsert content field_name v2)
              .ok (content2, RW.app res res2)
          | .plain => upfkFields env page_id_map model_fields page_id rest content

/-- The per-record loop of update_page_foreign_keys, carrying the fields_map
cache keyed by "app_label.model". -/
def upfkRecords (env : Env) (page_id_map : IdMap) :
    List PageRecord → List (String × List (String × FieldInfo)) →
    Except PyErr (List PageRecord × RW)
  | [], _cache => .ok ([], RW.empty)
  | r :: rs, cache => do
      let model_key := r.app_label ++ "." ++ r.model
      let pageModel ← (match env.getModel model_key with
        | some mi => Except.ok mi
        | Option.none => Except.error (PyErr.lookupError model_key))
      let cache2 := if dcontains cache model_key then cache
        else dinsert cache model_key pageModel.fields
      let model_fields := (dlookup cache2 model_key).getD []
      let page_id ← (match dlookup r.content "pk" with
        | some v => Except.ok v
        | Option.none => Except.error (PyErr.keyError "pk"))
      let (content2, res) ← upfkFields env page_id_map model_fields page_id
        r.content r.content
      let (rs2, res2) ← upfkRecords env page_id_map rs cache2
      .ok ({ r with content := content2 } :: rs2, RW.app res res2)

/-- Update foreign key references to pages in (import) content_data
(update_page_foreign_keys in importing.py). -/
def update_page_foreign_keys (env : Env) (content_data : ContentData)
    (page_id_map : IdMap) : Except PyErr (ContentData × RW) := do
  let (pages2, results) ← upfkRecords env page_id_map content_data.pages []
  .ok ({ pages := pages2 }, results)

/-- A page object (a model instance): its concrete class key and its
attribute dict.  Page.specific is modelled as the identity (destination rows
are stored as their specific instances). -/
structure Pg where
  cls : String
  dict : List (String × PyVal)
  deriving DecidableEq

/-- Attribute read with None default (used for the always-present database
columns id and path of existing destination rows). -/
def Pg.attrD (p : Pg) (name : String) : PyVal := (dlookup p.dict name).getD .none

/-- The destination index existing_page_id_map =
page.path : page.id for page in Page.objects.all(). -/
def buildPathMap (db : List Pg) : List (PyVal × PyVal) :=
  db.foldl (fun acc pg => dinsert acc (pg.attrD "path") (pg.attrD "id")) []

/-- The per-record loop of update_page_ids: match on path, rewrite pk in
place on a match, and extend the old-id to new-id map. -/
def upidGo (pathMap : List (PyVal × PyVal)) :
    List PageRecord → List (PyVal × PyVal) →
    Except PyErr (List PageRecord × List (PyVal × PyVal))
  | [], acc => .ok ([], acc)
  | r :: rs, acc => do
      let path ← (match dlookup r.content "path" with
        | some v => Except.ok v
        | Option.none => Except.error (PyErr.keyError "path"))
      match dlookup pathMap path with
      | some existing_page_id => do
          let pk ← (match dlookup r.content "pk" with
            | some v => Except.ok v
            | Option.none => Except.error (PyErr.keyError "pk"))
          let acc2 := dinsert acc pk existing_page_id
          let content2 := dinsert r.content "pk" existing_page_id
          let (rs2, m2) ← upidGo pathMap rs acc2
          .ok ({ r with content := content2 } :: rs2, m2)
      | Option.none => do
          let pk ← (match dlookup r.content "pk" with
            | some v => Except.ok v
            | Option.none => Except.error (PyErr.keyError "pk"))
          let acc2 := dinsert acc pk pk
          let (rs2, m2) ← upidGo pathMap rs acc2
          .ok (r :: rs2, m2)

/-- Match pages in content_data to existing pages and update the page ids in
content_data; returns the mapping from old (exported) ids to new ids
(update_page_ids in importing.py). -/
def update_page_ids (db : List Pg) (content_data : ContentData) :
    Except PyErr (ContentData × List (PyVal × PyVal)) := do
  let existing_page_id_map := buildPathMap db
  let (pages2, page_id_map) ← upidGo existing_page_id_map content_data.pages []
  .ok ({ pages := pages2 }, page_id_map)

theorem blockSize_child_lt {b : Block} {cbs : List (String × Block)} {k : String}
    {child : Block} (hc : Block.childList b = some cbs) (hl : dlookup cbs k = some child) :
    blockSize child < blockSize b := by
  have h1 := dlookup_blockPairsSize hl
  have h2 := childList_blockSize hc
  omega

mutual

/-- Convert streamfield data to stream_data format: only keep 'type' and
'value' keys (stream_data_to_stream_import_data in importing.py).  Blocks
whose type is not among the schema's child_blocks are not appended. -/
def stream_data_to_stream_import_data (stream_data : PyVal) (stream_block : Block) :
    Except PyErr PyVal :=
  match stream_data with
  | .list items => do
      let out ← sdisiItems stream_block items
      .ok (.list out)
  | _ => .error (.typeError "stream data is not iterable as a stream")
termination_by (blockSize stream_block, 1, 0)

/-- The per-block loop of stream_data_to_stream_import_data. -/
def sdisiItems (stream_block : Block) : List PyVal → Except PyErr (List PyVal)
  | [] => .ok []
  | bd :: rest => do
      let block_type ← pyGetItem bd "type"
      let block_value ← pyGetItem bd "value"
      match hcb : Block.childList stream_block with
      | Option.none => .error (.attributeError "object has no attribute child_blocks")
      | some cbs =>
          match hch : tagLookup block_type cbs with
          | some child => do
              let newv ← (match hc : child with
                | .streamB ccbs =>
                    stream_data_to_stream_import_data block_value (.streamB ccbs)
                | _ => Except.ok block_value)
              let rest2 ← sdisiItems stream_block rest
              .ok (.dict [("type", block_type), ("value", newv)] :: rest2)
          | Option.none => sdisiItems stream_block rest
termination_by items => (blockSize stream_block, 0, items.length)
decreasing_by
  all_goals
    first
      | decreasing_tactic
      | (obtain ⟨t, ht⟩ := tagLookup_some hch
         have := blockSize_child_lt hcb ht
         subst hc
         decreasing_tactic)

end

/-- The declared fields of a class, via the model registry (a Python class
always carries _meta; an unregistered class key yields no declared fields). -/
def Env.fieldsOfCls (e : Env) (cls : String) : List (String × FieldInfo) :=
  match dlookup e.models cls with
  | some mi => mi.fields
  | Option.none => []

/-- The __name__ of a model class. -/
def Env.clsNameOf (e : Env) (cls : String) : String :=
  match dlookup e.models cls with
  | some mi => mi.clsName
  | Option.none => cls

/-- The per-item loop of update_page_fields: assign only names declared in
the model's fields; a StreamField value is json-parsed, converted with
stream_data_to_stream_import_data and assigned to the StreamValue's
stream_data attribute. -/
def upfFields (env : Env) (fields_map : List (String × FieldInfo)) :
    List (String × PyVal) → List (String × PyVal) →
    Except PyErr (List (String × PyVal))
  | [], d => .ok d
  | (name, value) :: rest, d =>
      match dlookup fields_map name with
      | Option.none => upfFields env fields_map rest d
      | some field =>
          match field.kind with
          | .stream _ => do
              let cur ← (match dlookup d name with
                | some c => Except.ok c
                | Option.none => Except.error (PyErr.keyError name))
              let stream_block ← (match cur with
                | .streamVal b _ => Except.ok b
                | _ => Except.error
                    (PyErr.attributeError "object has no attribute stream_block"))
              let s ← (match value with
                | .str s => Except.ok s
                | _ => Except.error
                    (PyErr.typeError "the JSON object must be str, bytes or bytearray"))
              let sd ← env.jsonLoads s
              let imported ← stream_data_to_stream_import_data sd stream_block
              upfFields env fields_map rest (dinsert d name (.streamVal stream_block imported))
          | _ => upfFields env fields_map rest (dinsert d name value)

/-- Assign page fields from the content mapping (update_page_fields in
importing.py). -/
def update_page_fields (env : Env) (page : Pg) (page_content : List (String × PyVal)) :
    Except PyErr Pg := do
  let fields_map := env.fieldsOfCls page.cls
  let d2 ← upfFields env fields_map page_content page.dict
  .ok { page with dict := d2 }

/-- The existing_pages index, page.id : page.specific over the destination
rows (Page.specific modelled as the identity). -/
def buildIdMap (db : List Pg) : List (PyVal × Pg) :=
  db.foldl (fun acc pg => dinsert acc (pg.attrD "id") pg) []

/-- The per-record loop of import_pages_content.  On a persistence exception
the source appends a failure message to the result dict and then re-raises
(bare `raise`), so the loop stops, later records are not saved, and the
accumulated result dict is discarded; the embedded loop therefore propagates
the error.  (The failure-message formatting itself uses %d on the page id,
which would replace the exception with a TypeError for a non-int id.) -/
def ipcGo (env : Env) (save : List Pg → Pg → Except PyErr (List Pg × Pg))
    (existing : List (PyVal × Pg)) :
    List PageRecord → List Pg → Except PyErr (List Pg × IR)
  | [], db => .ok (db, ⟨[], [], [], []⟩)
  | r :: rs, db => do
      let page_id ← (match dlookup r.content "pk" with
        | some v => Except.ok v
        | Option.none => Except.error (PyErr.keyError "pk"))
      let model_key := r.app_label ++ "." ++ r.model
      let mi ← (match env.getModel model_key with
        | some mi => Except.ok mi
        | Option.none => Except.error (PyErr.lookupError model_key))
      let pc1 := dinsert r.content "content_type" (.str model_key)
      let pc2 := dinsert pc1 "live_revision" .none
      let (specific_page, warns) ← (match dlookup existing page_id with
        | some pg =>
            if pg.cls ≠ model_key then do
              let d ← pyFmtD (pg.attrD "id")
              Except.ok (pg, ["Existing Page(id=" ++ d ++ ") class " ++
                env.clsNameOf pg.cls ++ " != import class " ++ mi.clsName])
            else Except.ok (pg, [])
        | Option.none => Except.ok (Pg.mk model_key mi.newDict, []))
      match (do
          let pg1 ← update_page_fields env specific_page pc2
          let (db2, pg2) ← save db pg1
          let idv ← (match dlookup pg2.dict "id" with
            | some v => Except.ok v
            | Option.none => Except.error (PyErr.attributeError "id"))
          let ids ← pyFmtD idv
          let t ← (match dlookup pg2.dict "title" with
            | some v => Except.ok v
            | Option.none => Except.error (PyErr.attributeError "title"))
          Except.ok (db2, "(" ++ ids ++ ") " ++ pyStrS t)) with
      | .ok (db2, msg) => do
          let (db3, ir) ← ipcGo env save existing rs db2
          .ok (db3, ⟨warns ++ ir.warnings, ir.errors, ir.failures, msg :: ir.pages⟩)
      | .error e =>
          match page_id with
          | .int _ => .error e
          | _ => .error (.typeError "%d format: a number is required, not str")

/-- Import the pages_data in the content_data as given
(import_pages_content in importing.py).  The save collaborator persists one
page into the destination row list and returns the saved instance. -/
def import_pages_content (env : Env) (save : List Pg → Pg → Except PyErr (List Pg × Pg))
    (db : List Pg) (content_data : ContentData) : Except PyErr (List Pg × IR) := do
  let existing := buildIdMap db
  ipcGo env save existing content_data.pages db

/-- The resolve-rewrite-persist sequence of import_pages_by_url once the
anchor check has passed. -/
def ipbuProceed (env : Env) (save : List Pg → Pg → Except PyErr (List Pg × Pg))
    (db : List Pg) (content_data : ContentData) :
    Except PyErr (List Pg × ContentData × IR) := do
  let (cd1, page_id_map) ← update_page_ids db content_data
  let (cd2, results) ← update_page_foreign_keys env cd1 page_id_map
  let (db2, import_results) ← import_pages_content env save db cd2
  .ok (db2, cd2,
    ⟨results.warnings ++ import_results.warnings,
     results.errors ++ import_results.errors,
     results.failures ++ import_results.failures,
     import_results.pages⟩)

/-- Import the pages given in the content_data (import_pages_by_url in
importing.py).  Returns the destination rows, the (possibly mutated in
place) interchange document and the aggregated result dict. -/
def import_pages_by_url (env : Env) (save : List Pg → Pg → Except PyErr (List Pg × Pg))
    (db : List Pg) (content_data : ContentData) :
    Except PyErr (List Pg × ContentData × IR) := do
  let r0 ← (match content_data.pages.head? with
    | some r => Except.ok r
    | Option.none => Except.error (PyErr.indexError "list index out of range"))
  let first_page_path ← (match dlookup r0.content "path" with
    | some v => Except.ok v
    | Option.none => Except.error (PyErr.keyError "path"))
  match db.find? (fun pg => decide (dlookup pg.dict "path" = some first_page_path)) with
  | some _ => ipbuProceed env save db content_data
  | Option.none => do
      let first_page_parent_path ← (match first_page_path with
        | .str p => Except.ok (PyVal.str (p.dropRight 4))
        | .list xs => Except.ok (PyVal.list (xs.take (xs.length - 4)))
        | _ => Except.error (PyErr.typeError "object is not subscriptable"))
      match db.find? (fun pg =>
          decide (dlookup pg.dict "path" = some first_page_parent_path)) with
      | some _ => ipbuProceed env save db content_data
      | Option.none => do
          let t ← (match dlookup r0.content "title" with
            | some v => Except.ok v
            | Option.none => Except.error (PyErr.keyError "title"))
          let sl ← (match dlookup r0.content "slug" with
            | some v => Except.ok v
            | Option.none => Except.error (PyErr.keyError "slug"))
          .ok (db, content_data,
            ⟨[], [],
             ["Pages could not be imported because the path to the first page " ++
              "(title=" ++ pyRepr t ++ ", url_slug=" ++ pyRepr sl ++ ")" ++
              "could not be located. Please import to a location that exists."], []⟩)

/- Dict lemmas used throughout the verification. -/

theorem dlookup_dinsert_self {κ α : Type} [DecidableEq κ] (l : List (κ × α)) (k : κ) (v : α) :
    dlookup (dinsert l k v) k = some v := by
  induction l with
  | nil => simp [dinsert, dlookup]
  | cons hd t ih =>
      obtain ⟨k', v'⟩ := hd
      by_cases h : k' = k
      · subst h
        simp [dinsert, dlookup]
      · simp [dinsert, dlookup, h, ih]

theorem dlookup_dinsert_ne {κ α : Type} [DecidableEq κ] (l : List (κ × α)) (k k' : κ)
    (v : α) (h : k ≠ k') : dlookup (dinsert l k v) k' = dlookup l k' := by
  induction l with
  | nil => simp [dinsert, dlookup, h]
  | cons hd t ih =>
      obtain ⟨k0, v0⟩ := hd
      by_cases h0 : k0 = k
      · subst h0
        simp [dinsert, dlookup, h]
      · simp [dinsert, dlookup, h0, ih]

theorem dinsert_dinsert_same {κ α : Type} [DecidableEq κ] (l : List (κ × α)) (k : κ)
    (v w : α) : dinsert (dinsert l k v) k w = dinsert l k w := by
  induction l with
  | nil => simp [dinsert]
  | cons hd t ih =>
      obtain ⟨k0, v0⟩ := hd
      by_cases h0 : k0 = k
      · subst h0
        simp [dinsert]
      · simp [dinsert, h0, ih]

theorem dinsert_self_of_lookup {κ α : Type} [DecidableEq κ] {l : List (κ × α)} {k : κ}
    {v : α} (h : dlookup l k = some v) : dinsert l k v = l := by
  induction l with
  | nil => simp [dlookup] at h
  | cons hd t ih =>
      obtain ⟨k0, v0⟩ := hd
      by_cases h0 : k0 = k
      · subst h0
        simp [dlookup] at h
        simp [dinsert, h]
      · simp [dlookup, h0] at h
        simp [dinsert, h0, ih h]

theorem dinsert_append_of_not_contains {κ α : Type} [DecidableEq κ] {l : List (κ × α)}
    {k : κ} (v : α) (h : dcontains l k = false) : dinsert l k v = l ++ [(k, v)] := by
  induction l with
  | nil => simp [dinsert]
  | cons hd t ih =>
      obtain ⟨k0, v0⟩ := hd
      by_cases h0 : k0 = k
      · simp [dcontains, dlookup, h0] at h
      · simp only [dcontains, dlookup, h0, if_false] at h
        simp [dinsert, h0, ih h]

theorem dcontains_dinsert_self {κ α : Type} [DecidableEq κ] (l : List (κ × α)) (k : κ)
    (v : α) : dcontains (dinsert l k v) k = true := by
  simp [dcontains, dlookup_dinsert_self]

theorem dlookup_mem_values {κ α : Type} [DecidableEq κ] {l : List (κ × α)} {k : κ} {v : α}
    (h : dlookup l k = some v) : v ∈ l.map Prod.snd := by
  induction l with
  | nil => simp [dlookup] at h
  | cons hd t ih =>
      obtain ⟨k0, v0⟩ := hd
      simp only [dlookup] at h
      split at h
      · cases h; simp
      · simp [ih h]

theorem dlookup_append_left {κ α : Type} [DecidableEq κ] {l : List (κ × α)}
    (l2 : List (κ × α)) {k : κ} {v : α} (h : dlookup l k = some v) :
    dlookup (l ++ l2) k = some v := by
  induction l with
  | nil => simp [dlookup] at h
  | cons hd t ih =>
      obtain ⟨k0, v0⟩ := hd
      simp only [dlookup] at h ⊢
      split at h
      · simp_all [dlookup]
      · simp_all [dlookup]

theorem dlookup_of_map_nodup {τ : Type} (f : τ → PyVal × PyVal) (l : List τ) (r : τ)
    (hnd : (l.map (fun x => (f x).1)).Nodup) (hr : r ∈ l) :
    dlookup (l.map f) (f r).1 = some (f r).2 := by
  induction l with
  | nil => simp at hr
  | cons hd t ih =>
      simp only [List.map_cons, List.nodup_cons] at hnd
      rcases List.mem_cons.mp hr with h | h
      · subst h
        simp [dlookup]
      · have hne : (f hd).1 ≠ (f r).1 := by
          intro he
          exact hnd.1 (he ▸ List.mem_map_of_mem (fun x => (f x).1) h)
        simp only [List.map_cons, dlookup, hne, if_false]
        exact ih hnd.2 h

/- Claim theorems. -/

/-- C9: update_page_fks_in_field never returns normally: both branches refer
to names (result, field) bound in no enclosing scope, so every invocation
raises a NameError. -/
theorem C9_update_page_fks_in_field_always_nameError
    (value page_id field_name : PyVal) (page_id_map : IdMap) :
    ∃ n, update_page_fks_in_field value page_id field_name page_id_map =
      .error (.nameError n) := by
  unfold update_page_fks_in_field
  split
  · exact ⟨"result", rfl⟩
  · exact ⟨"field", rfl⟩

/-- C3 (code bug): evaluating update_page_fks_in_field at representative
inputs.  The claim describes the documented remap-or-warn contract, but the
code raises NameError on every call: NameError 'field' when the value is
absent from the map (the branch evaluates the unbound name field), and
NameError 'result' when the value is present (the branch evaluates the
unbound name result), so no remap, warning or error list is ever produced. -/
theorem C3_update_page_fks_in_field_nameError_eval :
    update_page_fks_in_field (.int 5) (.int 1) (.str "link") [] =
      .error (.nameError "field") ∧
    update_page_fks_in_field (.int 5) (.int 1) (.str "link") [(.int 5, .int 7)] =
      .error (.nameError "result") := ⟨rfl, rfl⟩

/-- C5 (code bug): the struct-block rewriter at a concrete input.  The source
passes (page_id, field_name, value, child schema, map) to
update_page_fks_in_block, whose signature is (block_data, block, page_id,
field_name, map); with the arguments so swapped, every isinstance test in
update_page_fks_in_block fails and the call returns its first argument (the
host page id) with an empty result, so the declared child value 5 is replaced
by the host page id 1 instead of the mapped identifier 7 and no recursion
into the child schema happens.  An undeclared child still gets exactly one
warning and is left verbatim. -/
theorem C5_struct_block_swapped_arguments_eval :
    update_page_fks_in_struct_block
      (.dict [("type", .str "card"), ("value", .dict [("link", .int 5)])])
      (.block (.structB [("link", .pageChooser)]))
      (.int 1) (.str "body") [(.int 5, .int 7)] =
      .ok (.dict [("type", .str "card"), ("value", .dict [("link", .int 1)])],
        RW.empty) ∧
    update_page_fks_in_struct_block
      (.dict [("type", .str "card"), ("value", .dict [("other", .int 5)])])
      (.block (.structB [("link", .pageChooser)]))
      (.int 1) (.str "body") [(.int 5, .int 7)] =
      .ok (.dict [("type", .str "card"), ("value", .dict [("other", .int 5)])],
        ⟨["Block type='card' not found in Page(id=1).body in StreamBlock=<StructBlock>"],
         [], []⟩) := by
  constructor
  · simp [update_page_fks_in_struct_block, update_struct_items, update_page_fks_in_block,
      pyGetItem, pySetItem, dlookup, dinsert, dkeys, Block.childList, RW.app, RW.empty,
      pyFmtD, pyRepr, pyStrS, blockRepr, pyIntStr, pyNatStr, natStrAux,
      bind, Except.bind]
  · simp [update_page_fks_in_struct_block, update_struct_items, update_page_fks_in_block,
      pyGetItem, pySetItem, dlookup, dinsert, dkeys, Block.childList, RW.app, RW.empty,
      pyFmtD, pyRepr, pyStrS, blockRepr, pyIntStr, pyNatStr, natStrAux,
      bind, Except.bind]
    rfl

/-- Concrete model registry for exercising import_pages_content: one model
app.m with a single plain title field. -/
def C1env : Env :=
  ⟨[("app.m", ⟨"M", [("title", ⟨.plain, false⟩)], [("title", .str "")]⟩)],
   fun _ => .error (.valueError "no json"), fun _ => "json"⟩

/-- Concrete persistence collaborator: saving a page titled "A" raises; any
other page is stored and assigned id 42. -/
def C1save : List Pg → Pg → Except PyErr (List Pg × Pg) := fun db pg =>
  if dlookup pg.dict "title" = some (.str "A") then .error (.valueError "boom")
  else
    let pg2 : Pg := ⟨pg.cls, dinsert pg.dict "id" (.int 42)⟩
    .ok (db ++ [pg2], pg2)

/-- Two records whose first fails persistence. -/
def C1doc : ContentData :=
  ⟨[⟨"app", "m", [("pk", .int 1), ("title", .str "A")]⟩,
    ⟨"app", "m", [("pk", .int 2), ("title", .str "B")]⟩]⟩

/-- The second record alone. -/
def C1docB : ContentData :=
  ⟨[⟨"app", "m", [("pk", .int 2), ("title", .str "B")]⟩]⟩

/-- C1 (code bug): the claim says a persistence exception is caught
per-record, recorded, and the loop continues so later records are still
persisted and the accumulated result is returned.  The except clause of
import_pages_content, however, ends in a bare raise: with two records whose
first fails to save, the function propagates the exception, the second record
(which saves fine on its own, as the second conjunct shows) is never
persisted, and no result dict carrying the recorded failure is returned. -/
theorem C1_import_pages_content_reraises_eval :
    import_pages_content C1env C1save [] C1doc = .error (.valueError "boom") ∧
    import_pages_content C1env C1save [] C1docB =
      .ok ([⟨"app.m", [("title", .str "B"), ("id", .int 42)]⟩],
        ⟨[], [], [], ["(42) B"]⟩) := by
  constructor
  · rfl
  · rfl

/-- C2: when the first record's path has no match in the destination and its
parent path (path minus the last four-character segment) has none either,
import_pages_by_url returns a result whose failures list is exactly one
message, without invoking the resolver, the rewriter or persistence: the
destination rows and the interchange document are returned unchanged. -/
theorem C2_import_pages_by_url_no_anchor_single_failure
    (env : Env) (save : List Pg → Pg → Except PyErr (List Pg × Pg)) (db : List Pg)
    (cd : ContentData) (r0 : PageRecord) (p : String) (t sl : PyVal)
    (h0 : cd.pages.head? = some r0)
    (hpath : dlookup r0.content "path" = some (.str p))
    (hfind : db.find? (fun pg => decide (dlookup pg.dict "path" = some (.str p))) =
      Option.none)
    (hfindp : db.find? (fun pg =>
      decide (dlookup pg.dict "path" = some (.str (p.dropRight 4)))) = Option.none)
    (ht : dlookup r0.content "title" = some t)
    (hs : dlookup r0.content "slug" = some sl) :
    import_pages_by_url env save db cd =
      .ok (db, cd,
        ⟨[], [],
         ["Pages could not be imported because the path to the first page " ++
          "(title=" ++ pyRepr t ++ ", url_slug=" ++ pyRepr sl ++ ")" ++
          "could not be located. Please import to a location that exists."], []⟩) := by
  simp [import_pages_by_url, h0, hpath, hfind, hfindp, ht, hs, bind, Except.bind]

/-- Empty model registry for the C2 witness. -/
def C2env : Env := ⟨[], fun _ => .error (.valueError "no json"), fun _ => "json"⟩

/-- Append-only persistence collaborator for the C2 witness. -/
def C2save : List Pg → Pg → Except PyErr (List Pg × Pg) := fun db pg =>
  .ok (db ++ [pg], pg)

/-- One destination row at path 0001. -/
def C2db : List Pg :=
  [⟨"wagtailcore.page", [("id", .int 1), ("path", .str "0001"), ("title", .str "Root")]⟩]

/-- An incoming document whose first record is at path 00220022: neither that
path nor its parent 0022 exists in C2db. -/
def C2doc : ContentData :=
  ⟨[⟨"home", "homepage",
     [("path", .str "00220022"), ("pk", .int 3), ("title", .str "Home"),
      ("slug", .str "home")]⟩]⟩

/-- Witness for C2 at a concrete destination and document. -/
theorem C2_import_pages_by_url_no_anchor_witness :
    import_pages_by_url C2env C2save C2db C2doc =
      .ok (C2db, C2doc,
        ⟨[], [],
         ["Pages could not be imported because the path to the first page " ++
          "(title=" ++ pyRepr (.str "Home") ++ ", url_slug=" ++ pyRepr (.str "home") ++ ")" ++
          "could not be located. Please import to a location that exists."], []⟩) :=
  C2_import_pages_by_url_no_anchor_single_failure C2env C2save C2db C2doc _
    "00220022" (.str "Home") (.str "home") rfl rfl rfl rfl rfl rfl

theorem dcontains_append {κ α : Type} [DecidableEq κ] (l1 l2 : List (κ × α)) (k : κ) :
    dcontains (l1 ++ l2) k = (dcontains l1 k || dcontains l2 k) := by
  induction l1 with
  | nil => simp [dcontains, dlookup]
  | cons hd t ih =>
      obtain ⟨k0, v0⟩ := hd
      by_cases h0 : k0 = k
      · simp [dcontains, dlookup, h0]
      · simpa [dcontains, dlookup, h0] using ih

/-- The per-record transform that update_page_ids applies to the document
(spec side of C4): a record whose path matches the destination index gets
its pk rewritten in place to the matched identifier, any other record is
returned unchanged. -/
def upidRecordSpec (pathMap : List (PyVal × PyVal)) (r : PageRecord) : PageRecord :=
  match dlookup pathMap ((dlookup r.content "path").getD .none) with
  | some did => { r with content := dinsert r.content "pk" did }
  | Option.none => r

/-- The identifier-map entry that update_page_ids records for one document
record (spec side of C4): source pk maps to the matched destination
identifier, or to itself when the path has no match. -/
def upidEntrySpec (pathMap : List (PyVal × PyVal)) (r : PageRecord) : PyVal × PyVal :=
  match dlookup pathMap ((dlookup r.content "path").getD .none) with
  | some did => ((dlookup r.content "pk").getD .none, did)
  | Option.none => ((dlookup r.content "pk").getD .none,
      (dlookup r.content "pk").getD .none)

theorem upidEntrySpec_fst (pm : List (PyVal × PyVal)) (r : PageRecord) :
    (upidEntrySpec pm r).1 = (dlookup r.content "pk").getD .none := by
  unfold upidEntrySpec
  split <;> rfl

theorem upidGo_spec (pm : List (PyVal × PyVal)) :
    ∀ (rs : List PageRecord) (acc : List (PyVal × PyVal)),
    (∀ r ∈ rs, (dlookup r.content "pk").isSome ∧ (dlookup r.content "path").isSome) →
    (∀ r ∈ rs, dcontains acc ((dlookup r.content "pk").getD .none) = false) →
    (rs.map (fun r => (dlookup r.content "pk").getD .none)).Nodup →
    upidGo pm rs acc = .ok (rs.map (upidRecordSpec pm), acc ++ rs.map (upidEntrySpec pm))
  | [], acc => by
      intro _ _ _
      simp [upidGo]
  | r :: rs, acc => by
      intro hwf hfresh hnd
      obtain ⟨hpk, hpath⟩ := hwf r (List.mem_cons_self r rs)
      obtain ⟨pk, hpk⟩ := Option.isSome_iff_exists.mp hpk
      obtain ⟨path, hpath⟩ := Option.isSome_iff_exists.mp hpath
      simp only [List.map_cons, List.nodup_cons] at hnd
      have hfr := hfresh r (List.mem_cons_self r rs)
      rw [hpk] at hfr
      simp only [Option.getD_some] at hfr
      have hfresh2 : ∀ did, ∀ r' ∈ rs,
          dcontains (acc ++ [(pk, did)]) ((dlookup r'.content "pk").getD .none) = false := by
        intro did r' hr'
        rw [dcontains_append]
        have h1 := hfresh r' (List.mem_cons_of_mem r hr')
        have h2 : pk ≠ (dlookup r'.content "pk").getD .none := by
          intro he
          apply hnd.1
          rw [hpk]
          simp only [Option.getD_some]
          rw [he]
          exact List.mem_map_of_mem _ hr'
        simp only [dcontains, dlookup, h2, Bool.or_eq_false_iff]
        constructor
        · rcases hx : dlookup acc ((dlookup r'.content "pk").getD PyVal.none) with _ | v
          · rfl
          · exfalso
            unfold dcontains at h1
            rw [hx] at h1
            simp at h1
        · rfl
      have hih := fun did => upidGo_spec pm rs (acc ++ [(pk, did)])
        (fun r' hr' => hwf r' (List.mem_cons_of_mem r hr')) (hfresh2 did) hnd.2
      simp only [upidGo, hpath, hpk, bind, Except.bind]
      cases hm : dlookup pm path with
      | some did =>
          dsimp only
          rw [dinsert_append_of_not_contains did hfr, hih did]
          have hr : upidRecordSpec pm r = { r with content := dinsert r.content "pk" did } := by
            unfold upidRecordSpec
            rw [hpath]
            simp [hm]
          have he : upidEntrySpec pm r = (pk, did) := by
            unfold upidEntrySpec
            rw [hpath]
            simp [hm, hpk]
          simp [hr, he]
      | none =>
          dsimp only
          rw [dinsert_append_of_not_contains pk hfr, hih pk]
          have hr : upidRecordSpec pm r = r := by
            unfold upidRecordSpec
            rw [hpath]
            simp [hm]
          have he : upidEntrySpec pm r = (pk, pk) := by
            unfold upidEntrySpec
            rw [hpath]
            simp [hm, hpk]
          simp [hr, he]

/-- C4: postcondition of update_page_ids.  For every document whose records
all carry pk and path and whose source identifiers are distinct: a record
whose path is in the destination index has its pk rewritten in place to the
matched identifier and the map sends the source pk to that identifier; an
unmatched record is left unchanged and its pk maps to itself; the map has
exactly one entry per record (so N entries for N distinct identifiers), in
document order, and every map value is an existing destination identifier or
the unchanged source identifier. -/
theorem C4_update_page_ids_postcondition
    (db : List Pg) (cd cd2 : ContentData) (m : List (PyVal × PyVal))
    (hwf : ∀ r ∈ cd.pages,
      (dlookup r.content "pk").isSome ∧ (dlookup r.content "path").isSome)
    (hnd : (cd.pages.map (fun r => (dlookup r.content "pk").getD .none)).Nodup)
    (hrun : update_page_ids db cd = .ok (cd2, m)) :
    cd2.pages = cd.pages.map (upidRecordSpec (buildPathMap db)) ∧
    m = cd.pages.map (upidEntrySpec (buildPathMap db)) ∧
    m.length = cd.pages.length ∧
    (∀ r ∈ cd.pages,
      dlookup m ((dlookup r.content "pk").getD .none) =
        some (upidEntrySpec (buildPathMap db) r).2) ∧
    (∀ e ∈ m, e.2 ∈ (buildPathMap db).map Prod.snd ∨ e.2 = e.1) := by
  have hgo := upidGo_spec (buildPathMap db) cd.pages [] hwf
    (by intro r _; rfl) hnd
  unfold update_page_ids at hrun
  simp only [hgo, bind, Except.bind, List.nil_append] at hrun
  cases hrun
  refine ⟨rfl, rfl, by simp, ?_, ?_⟩
  · intro r hr
    have hkeys : ((cd.pages.map (upidEntrySpec (buildPathMap db))).map Prod.fst).Nodup := by
      rw [List.map_map]
      have : (Prod.fst ∘ upidEntrySpec (buildPathMap db)) =
          (fun r => (dlookup r.content "pk").getD .none) := by
        funext r'
        exact upidEntrySpec_fst _ r'
      rw [this]
      exact hnd
    have := dlookup_of_map_nodup (upidEntrySpec (buildPathMap db)) cd.pages r
      (by simpa using hkeys) hr
    rwa [upidEntrySpec_fst] at this
  · intro e he
    obtain ⟨r, _hr, hre⟩ := List.mem_map.mp he
    subst hre
    unfold upidEntrySpec
    cases hm : dlookup (buildPathMap db) ((dlookup r.content "path").getD .none) with
    | some did => exact Or.inl (by simpa using dlookup_mem_values hm)
    | none => exact Or.inr rfl

/-- One destination row with id 9 at path 00010001. -/
def C4db : List Pg :=
  [⟨"home.homepage", [("id", .int 9), ("path", .str "00010001"), ("title", .str "T")]⟩]

/-- Two incoming records: pk 110 at the existing path, pk 121 at a new one. -/
def C4doc : ContentData :=
  ⟨[⟨"home", "homepage", [("path", .str "00010001"), ("pk", .int 110)]⟩,
    ⟨"home", "homepage", [("path", .str "00010002"), ("pk", .int 121)]⟩]⟩

/-- Witness for C4: at the concrete destination and document, the matched
record's pk is rewritten to 9, the unmatched record is unchanged, and the map
is exactly the two entries 110 to 9 and 121 to 121. -/
theorem C4_update_page_ids_postcondition_witness :
    (⟨[⟨"home", "homepage", [("path", .str "00010001"), ("pk", .int 9)]⟩,
       ⟨"home", "homepage", [("path", .str "00010002"), ("pk", .int 121)]⟩]⟩ :
        ContentData).pages =
      C4doc.pages.map (upidRecordSpec (buildPathMap C4db)) ∧
    [((.int 110 : PyVal), (.int 9 : PyVal)), (.int 121, .int 121)] =
      C4doc.pages.map (upidEntrySpec (buildPathMap C4db)) ∧
    ([((.int 110 : PyVal), (.int 9 : PyVal)), (.int 121, .int 121)]).length =
      C4doc.pages.length ∧
    (∀ r ∈ C4doc.pages,
      dlookup [((.int 110 : PyVal), (.int 9 : PyVal)), (.int 121, .int 121)]
          ((dlookup r.content "pk").getD .none) =
        some (upidEntrySpec (buildPathMap C4db) r).2) ∧
    (∀ e ∈ [((.int 110 : PyVal), (.int 9 : PyVal)), (.int 121, .int 121)],
      e.2 ∈ (buildPathMap C4db).map Prod.snd ∨ e.2 = e.1) :=
  C4_update_page_ids_postcondition C4db C4doc
    ⟨[⟨"home", "homepage", [("path", .str "00010001"), ("pk", .int 9)]⟩,
      ⟨"home", "homepage", [("path", .str "00010002"), ("pk", .int 121)]⟩]⟩
    [(.int 110, .int 9), (.int 121, .int 121)]
    (by decide) (by decide) rfl

theorem pyGetItem_ok {v : PyVal} {k : String} {x : PyVal} (h : pyGetItem v k = .ok x) :
    ∃ es, v = .dict es ∧ dlookup es k = some x := by
  cases v <;> simp [pyGetItem] at h
  next es =>
    cases hl : dlookup es k with
    | none => rw [hl] at h; simp at h
    | some y => rw [hl] at h; simp at h; exact ⟨es, rfl, by rw [hl, h]⟩

/-- What stream_data_to_stream_import_data produces for one input block
(spec side of C10): none when the block is dropped or a nested error occurs,
otherwise the two-key type/value dict with the value recursively converted
under a StreamBlock child. -/
def sdisiSpec (blk : Block) (bd : PyVal) : Option PyVal :=
  match pyGetItem bd "type", pyGetItem bd "value", Block.childList blk with
  | .ok btype, .ok bv, some cbs =>
      match tagLookup btype cbs with
      | some (.streamB ccbs) =>
          match stream_data_to_stream_import_data bv (.streamB ccbs) with
          | .ok v2 => some (.dict [("type", btype), ("value", v2)])
          | .error _ => Option.none
      | some _ => some (.dict [("type", btype), ("value", bv)])
      | Option.none => Option.none
  | _, _, _ => Option.none

/-- Whether a block's type tag is a declared child block of the schema. -/
def tagDeclared (blk : Block) (bd : PyVal) : Bool :=
  match pyGetItem bd "type", Block.childList blk with
  | .ok (.str t), some cbs => dcontains cbs t
  | _, _ => false

theorem sdisiItems_spec (blk : Block) :
    ∀ (items out : List PyVal), sdisiItems blk items = .ok out →
      out = items.filterMap (sdisiSpec blk) := by
  intro items
  induction items with
  | nil =>
      intro out h
      simp [sdisiItems] at h
      simp [h]
  | cons bd rest ih =>
      intro out h
      rw [sdisiItems] at h
      simp only [bind, Except.bind] at h
      cases hbt : pyGetItem bd "type" with
      | error e => rw [hbt] at h; simp at h
      | ok btype =>
          rw [hbt] at h
          dsimp only at h
          cases hbv : pyGetItem bd "value" with
          | error e => rw [hbv] at h; simp at h
          | ok bv =>
              rw [hbv] at h
              dsimp only at h
              cases hcb : Block.childList blk with
              | none => rw [hcb] at h; simp at h
              | some cbs =>
                  rw [hcb] at h
                  dsimp only at h
                  cases hch : tagLookup btype cbs with
                  | none =>
                      rw [hch] at h
                      dsimp only at h
                      simp [ih out h, sdisiSpec, hbt, hbv, hcb, hch]
                  | some child =>
                      rw [hch] at h
                      dsimp only at h
                      cases child with
                      | streamB ccbs =>
                          dsimp only at h
                          cases hsd : stream_data_to_stream_import_data bv (.streamB ccbs) with
                          | error e => rw [hsd] at h; simp at h
                          | ok v2 =>
                              rw [hsd] at h
                              dsimp only at h
                              cases hrest : sdisiItems blk rest with
                              | error e => rw [hrest] at h; simp at h
                              | ok rest2 =>
                                  rw [hrest] at h
                                  simp only [Except.ok.injEq] at h
                                  subst h
                                  simp [ih rest2 hrest, sdisiSpec, hbt, hbv, hcb, hch, hsd]
                      | pageChooser =>
                          dsimp only at h
                          cases hrest : sdisiItems blk rest with
                          | error e => rw [hrest] at h; simp at h
                          | ok rest2 =>
                              rw [hrest] at h
                              simp only [Except.ok.injEq] at h
                              subst h
                              simp [ih rest2 hrest, sdisiSpec, hbt, hbv, hcb, hch]
                      | richText =>
                          dsimp only at h
                          cases hrest : sdisiItems blk rest with
                          | error e => rw [hrest] at h; simp at h
                          | ok rest2 =>
                              rw [hrest] at h
                              simp only [Except.ok.injEq] at h
                              subst h
                              simp [ih rest2 hrest, sdisiSpec, hbt, hbv, hcb, hch]
                      | structB scbs =>
                          dsimp only at h
                          cases hrest : sdisiItems blk rest with
                          | error e => rw [hrest] at h; simp at h
                          | ok rest2 =>
                              rw [hrest] at h
                              simp only [Except.ok.injEq] at h
                              subst h
                              simp [ih rest2 hrest, sdisiSpec, hbt, hbv, hcb, hch]
                      | charB nm =>
                          dsimp only at h
                          cases hrest : sdisiItems blk rest with
                          | error e => rw [hrest] at h; simp at h
                          | ok rest2 =>
                              rw [hrest] at h
                              simp only [Except.ok.injEq] at h
                              subst h
                              simp [ih rest2 hrest, sdisiSpec, hbt, hbv, hcb, hch]

/-- C10: during persistence, stream_data_to_stream_import_data keeps exactly
the blocks whose type tag is a declared child block of the schema, in input
order (the filterMap characterization), drops every undeclared-tag block
(sdisiSpec yields none for them), and update_page_fields assigns the
converted stream to the page's StreamValue, so dropped blocks are absent from
the saved page. -/
theorem C10_stream_import_drops_undeclared_blocks :
    (∀ (blk : Block) (items out : List PyVal),
      stream_data_to_stream_import_data (.list items) blk = .ok (.list out) →
      out = items.filterMap (sdisiSpec blk)) ∧
    (∀ (blk : Block) (bd : PyVal), tagDeclared blk bd = false →
      sdisiSpec blk bd = Option.none) ∧
    (∀ (env : Env) (page : Pg) (name s : String) (fi : FieldInfo) (sb b : Block)
       (old sd out2 : PyVal),
      dlookup (env.fieldsOfCls page.cls) name = some fi → fi.kind = .stream sb →
      dlookup page.dict name = some (.streamVal b old) →
      env.jsonLoads s = .ok sd →
      stream_data_to_stream_import_data sd b = .ok out2 →
      update_page_fields env page [(name, .str s)] =
        .ok { page with dict := dinsert page.dict name (.streamVal b out2) }) := by
  refine ⟨?_, ?_, ?_⟩
  · intro blk items out h
    rw [stream_data_to_stream_import_data] at h
    simp only [bind, Except.bind] at h
    cases hsi : sdisiItems blk items with
    | error e => rw [hsi] at h; simp at h
    | ok out0 =>
        rw [hsi] at h
        simp only [Except.ok.injEq, PyVal.list.injEq] at h
        subst h
        exact sdisiItems_spec blk items out0 hsi
  · intro blk bd h
    unfold tagDeclared at h
    unfold sdisiSpec
    cases hbt : pyGetItem bd "type" with
    | error e =>
        cases pyGetItem bd "value" <;> cases Block.childList blk <;> rfl
    | ok btype =>
        rw [hbt] at h
        cases hbv : pyGetItem bd "value" with
        | error e =>
            cases Block.childList blk <;> rfl
        | ok bv =>
            cases hcb : Block.childList blk with
            | none => rfl
            | some cbs =>
                rw [hcb] at h
                dsimp only
                cases btype with
                | str t =>
                    dsimp only [tagLookup]
                    cases hl : dlookup cbs t with
                    | none => rfl
                    | some child =>
                        exfalso
                        simp [dcontains, hl] at h
                | none => rfl
                | int n => rfl
                | list xs => rfl
                | dict es => rfl
                | block b => rfl
                | streamVal b d => rfl
  · intro env page name s fi sb b old sd out2 hf hk hd hj hc
    simp [update_page_fields, upfFields, hf, hk, hd, hj, hc, bind, Except.bind]

/-- A stream schema declaring only the block type para. -/
def C10blk : Block := .streamB [("para", .charB "t")]

/-- Two stream blocks: a declared para block and an undeclared unknown one. -/
def C10items : List PyVal :=
  [.dict [("type", .str "para"), ("value", .str "x")],
   .dict [("type", .str "unknown"), ("value", .str "y")]]

/-- The converted stream: only the para block survives. -/
def C10out : List PyVal := [.dict [("type", .str "para"), ("value", .str "x")]]

/-- Registry/JSON collaborators for the C10 witness. -/
def C10env : Env :=
  ⟨[("p.m", ⟨"M", [("body", ⟨.stream C10blk, false⟩)], []⟩)],
   fun _ => .ok (.list C10items), fun _ => "json"⟩

/-- A page of class p.m whose body StreamValue carries the C10blk schema. -/
def C10page : Pg := ⟨"p.m", [("body", .streamVal C10blk (.list []))]⟩

/-- Witness for C10 at a concrete schema and stream. -/
theorem C10_stream_import_drops_undeclared_witness :
    (C10out = C10items.filterMap (sdisiSpec C10blk)) ∧
    sdisiSpec C10blk (.dict [("type", .str "unknown"), ("value", .str "y")]) =
      Option.none ∧
    update_page_fields C10env C10page [("body", .str "ser")] =
      .ok { C10page with
            dict := dinsert C10page.dict "body" (.streamVal C10blk (.list C10out)) } :=
  ⟨C10_stream_import_drops_undeclared_blocks.1 C10blk C10items C10out
     (by simp [stream_data_to_stream_import_data, sdisiItems, C10blk, C10items, C10out,
       pyGetItem, dlookup, tagLookup, Block.childList, bind, Except.bind]),
   C10_stream_import_drops_undeclared_blocks.2.1 C10blk _ rfl,
   C10_stream_import_drops_undeclared_blocks.2.2 C10env C10page "body" "ser"
     ⟨.stream C10blk, false⟩ C10blk C10blk (.list []) (.list C10items) (.list C10out)
     rfl rfl rfl rfl
     (by simp [stream_data_to_stream_import_data, sdisiItems, C10blk, C10items, C10out,
       pyGetItem, dlookup, tagLookup, Block.childList, bind, Except.bind])⟩

/-- What the stream rewriter produces for one (type, value) pair (spec side
of C8): a pair with a declared type tag is replaced by the result of the
recursive block rewrite under that child block's schema; any other pair is
left verbatim. -/
def streamSpecOut (b : Block) (cbs : List (String × Block)) (page_id field_name : PyVal)
    (m : IdMap) (bd : PyVal) : PyVal :=
  match pyGetItem bd "type" with
  | .ok btype =>
      match tagLookup btype cbs with
      | some child =>
          match update_page_fks_in_block bd (.block child) page_id field_name m with
          | .ok (v, _) => v
          | .error _ => bd
      | Option.none => bd
  | .error _ => bd

/-- The undeclared-type warning of the stream rewriter. -/
def streamWarn (b : Block) (page_id field_name btype : PyVal) : String :=
  "Block type=" ++ pyRepr btype ++ " not found in Page(id=" ++
    ((pyFmtD page_id).toOption.getD "") ++ ")." ++ pyStrS field_name ++
    " in StreamBlock=" ++ pyStrS (.block b)

/-- The warnings/errors/failures contributed by one (type, value) pair (spec
side of C8): the recursive rewrite's results for a declared tag, exactly one
warning naming the unknown tag otherwise. -/
def streamSpecRW (b : Block) (cbs : List (String × Block)) (page_id field_name : PyVal)
    (m : IdMap) (bd : PyVal) : RW :=
  match pyGetItem bd "type" with
  | .ok btype =>
      match tagLookup btype cbs with
      | some child =>
          match update_page_fks_in_block bd (.block child) page_id field_name m with
          | .ok (_, r) => r
          | .error _ => RW.empty
      | Option.none => ⟨[streamWarn b page_id field_name btype], [], []⟩
  | .error _ => RW.empty

theorem update_stream_items_spec (b : Block) (cbs : List (String × Block))
    (pid fname : PyVal) (m : IdMap) (hcb : Block.childList b = some cbs) :
    ∀ (items out : List PyVal) (res : RW),
    update_stream_items (.block b) pid fname m items = .ok (out, res) →
    out = items.map (streamSpecOut b cbs pid fname m) ∧
    res = (items.map (streamSpecRW b cbs pid fname m)).foldr RW.app RW.empty ∧
    (∀ bd ∈ items, ∀ btype child, pyGetItem bd "type" = .ok btype →
      tagLookup btype cbs = some child →
      ∃ v r, update_page_fks_in_block bd (.block child) pid fname m = .ok (v, r)) := by
  intro items
  induction items with
  | nil =>
      intro out res h
      rw [update_stream_items] at h
      simp only [Except.ok.injEq, Prod.mk.injEq] at h
      refine ⟨h.1.symm, ?_, by simp⟩
      simp [h.2.symm, RW.empty]
  | cons bd rest ih =>
      intro out res h
      rw [update_stream_items] at h
      simp only [bind, Except.bind] at h
      cases hbt : pyGetItem bd "type" with
      | error e => rw [hbt] at h; simp at h
      | ok btype =>
          rw [hbt] at h
          dsimp only at h
          rw [hcb] at h
          dsimp only at h
          cases hch : tagLookup btype cbs with
          | some child =>
              rw [hch] at h
              dsimp only at h
              cases hub : update_page_fks_in_block bd (.block child) pid fname m with
              | error e => rw [hub] at h; simp at h
              | ok pr =>
                  obtain ⟨bd2, r⟩ := pr
                  rw [hub] at h
                  dsimp only at h
                  cases hrest : update_stream_items (.block b) pid fname m rest with
                  | error e => rw [hrest] at h; simp at h
                  | ok pr2 =>
                      obtain ⟨rest2, res2⟩ := pr2
                      rw [hrest] at h
                      simp only [Except.ok.injEq, Prod.mk.injEq] at h
                      obtain ⟨ho, hr⟩ := h
                      obtain ⟨iho, ihr, ihall⟩ := ih rest2 res2 hrest
                      subst ho hr
                      refine ⟨?_, ?_, ?_⟩
                      · simp [streamSpecOut, hbt, hch, hub, iho]
                      · simp [streamSpecRW, hbt, hch, hub, ihr]
                      · intro bd' hbd' btype' child' hbt' hch'
                        rcases List.mem_cons.mp hbd' with hbd' | hbd'
                        · subst hbd'
                          rw [hbt] at hbt'
                          cases hbt'
                          rw [hch] at hch'
                          cases hch'
                          exact ⟨bd2, r, hub⟩
                        · exact ihall bd' hbd' btype' child' hbt' hch'
          | none =>
              rw [hch] at h
              dsimp only at h
              cases hfd : pyFmtD pid with
              | error e => rw [hfd] at h; simp at h
              | ok d =>
                  rw [hfd] at h
                  dsimp only at h
                  cases hrest : update_stream_items (.block b) pid fname m rest with
                  | error e => rw [hrest] at h; simp at h
                  | ok pr2 =>
                      obtain ⟨rest2, res2⟩ := pr2
                      rw [hrest] at h
                      simp only [Except.ok.injEq, Prod.mk.injEq] at h
                      obtain ⟨ho, hr⟩ := h
                      obtain ⟨iho, ihr, ihall⟩ := ih rest2 res2 hrest
                      subst ho hr
                      refine ⟨?_, ?_, ?_⟩
                      · simp [streamSpecOut, hbt, hch, iho]
                      · simp [streamSpecRW, streamWarn, hbt, hch, hfd, ihr, RW.app, RW.empty, Except.toOption]
                      · intro bd' hbd' btype' child' hbt' hch'
                        rcases List.mem_cons.mp hbd' with hbd' | hbd'
                        · subst hbd'
                          rw [hbt] at hbt'
                          cases hbt'
                          rw [hch] at hch'
                          cases hch'
                        · exact ihall bd' hbd' btype' child' hbt' hch'

/-- C8: postcondition of the stream rewriter.  For every stream (.list of
(type, value) pairs) whose rewrite succeeds: the output is the pointwise map
of the per-pair spec (so pair count and order are preserved exactly); the
result dict is the concatenation of the per-pair contributions; an
undeclared-tag pair is left verbatim and contributes exactly one warning
naming the unknown tag; and a declared-tag pair is replaced by the successful
recursive rewrite of the pair under that child block's schema. -/
theorem C8_stream_data_rewrite_postcondition
    (b : Block) (cbs : List (String × Block)) (pid fname : PyVal) (m : IdMap)
    (items out : List PyVal) (res : RW)
    (hcb : Block.childList b = some cbs)
    (hrun : update_page_fks_in_stream_data (.list items) (.block b) pid fname m =
      .ok (.list out, res)) :
    out = items.map (streamSpecOut b cbs pid fname m) ∧
    out.length = items.length ∧
    res = (items.map (streamSpecRW b cbs pid fname m)).foldr RW.app RW.empty ∧
    (∀ bd ∈ items, ∀ btype, pyGetItem bd "type" = .ok btype →
      tagLookup btype cbs = Option.none →
      streamSpecOut b cbs pid fname m bd = bd ∧
      streamSpecRW b cbs pid fname m bd = ⟨[streamWarn b pid fname btype], [], []⟩) ∧
    (∀ bd ∈ items, ∀ btype child, pyGetItem bd "type" = .ok btype →
      tagLookup btype cbs = some child →
      ∃ v r, update_page_fks_in_block bd (.block child) pid fname m = .ok (v, r) ∧
        streamSpecOut b cbs pid fname m bd = v ∧
        streamSpecRW b cbs pid fname m bd = r) := by
  rw [update_page_fks_in_stream_data] at hrun
  simp only [bind, Except.bind] at hrun
  cases hui : update_stream_items (.block b) pid fname m items with
  | error e => rw [hui] at hrun; simp at hrun
  | ok pr =>
      obtain ⟨out0, res0⟩ := pr
      rw [hui] at hrun
      simp only [Except.ok.injEq, Prod.mk.injEq, PyVal.list.injEq] at hrun
      obtain ⟨ho, hr⟩ := hrun
      subst ho hr
      obtain ⟨ho, hr, hall⟩ := update_stream_items_spec b cbs pid fname m hcb items out0 res0 hui
      refine ⟨ho, by simp [ho], hr, ?_, ?_⟩
      · intro bd _hbd btype hbt hch
        constructor
        · simp [streamSpecOut, hbt, hch]
        · simp [streamSpecRW, hbt, hch]
      · intro bd hbd btype child hbt hch
        obtain ⟨v, r, hub⟩ := hall bd hbd btype child hbt hch
        exact ⟨v, r, hub, by simp [streamSpecOut, hbt, hch, hub],
          by simp [streamSpecRW, hbt, hch, hub]⟩

/-- A stream schema declaring link (a page chooser) and txt. -/
def C8blk : Block := .streamB [("link", .pageChooser), ("txt", .charB "t")]

/-- A two-pair stream: a declared link pair and an undeclared zzz pair. -/
def C8items : List PyVal :=
  [.dict [("type", .str "link"), ("value", .int 5)],
   .dict [("type", .str "zzz"), ("value", .int 1)]]

/-- Witness for C8 at a concrete stream and identifier map. -/
theorem C8_stream_data_rewrite_witness :
    [PyVal.dict [("type", .str "link"), ("value", .int 7)],
     PyVal.dict [("type", .str "zzz"), ("value", .int 1)]] =
      C8items.map (streamSpecOut C8blk [("link", .pageChooser), ("txt", .charB "t")]
        (.int 1) (.str "body") [(.int 5, .int 7)]) ∧
    ([PyVal.dict [("type", .str "link"), ("value", .int 7)],
      PyVal.dict [("type", .str "zzz"), ("value", .int 1)]]).length = C8items.length ∧
    (⟨["Block type='zzz' not found in Page(id=1).body in StreamBlock=<StreamBlock>"],
      [], []⟩ : RW) =
      (C8items.map (streamSpecRW C8blk [("link", .pageChooser), ("txt", .charB "t")]
        (.int 1) (.str "body") [(.int 5, .int 7)])).foldr RW.app RW.empty ∧
    (∀ bd ∈ C8items, ∀ btype, pyGetItem bd "type" = .ok btype →
      tagLookup btype [("link", .pageChooser), ("txt", .charB "t")] = Option.none →
      streamSpecOut C8blk [("link", .pageChooser), ("txt", .charB "t")]
        (.int 1) (.str "body") [(.int 5, .int 7)] bd = bd ∧
      streamSpecRW C8blk [("link", .pageChooser), ("txt", .charB "t")]
        (.int 1) (.str "body") [(.int 5, .int 7)] bd =
        ⟨[streamWarn C8blk (.int 1) (.str "body") btype], [], []⟩) ∧
    (∀ bd ∈ C8items, ∀ btype child, pyGetItem bd "type" = .ok btype →
      tagLookup btype [("link", .pageChooser), ("txt", .charB "t")] = some child →
      ∃ v r, update_page_fks_in_block bd (.block child) (.int 1) (.str "body")
          [(.int 5, .int 7)] = .ok (v, r) ∧
        streamSpecOut C8blk [("link", .pageChooser), ("txt", .charB "t")]
          (.int 1) (.str "body") [(.int 5, .int 7)] bd = v ∧
        streamSpecRW C8blk [("link", .pageChooser), ("txt", .charB "t")]
          (.int 1) (.str "body") [(.int 5, .int 7)] bd = r) :=
  C8_stream_data_rewrite_postcondition C8blk [("link", .pageChooser), ("txt", .charB "t")]
    (.int 1) (.str "body") [(.int 5, .int 7)] C8items
    [.dict [("type", .str "link"), ("value", .int 7)],
     .dict [("type", .str "zzz"), ("value", .int 1)]]
    ⟨["Block type='zzz' not found in Page(id=1).body in StreamBlock=<StreamBlock>"], [], []⟩
    rfl
    (by
      simp [update_page_fks_in_stream_data, update_stream_items, update_page_fks_in_block,
        C8blk, C8items, pyGetItem, pySetItem, dlookup, tagLookup, Block.childList, pyFmtD,
        pyRepr, pyStrS, blockRepr, pyIntStr, pyNatStr, natStrAux, bind, Except.bind,
        RW.app, RW.empty]
      exact ⟨rfl, rfl⟩)

mutual

/-- The id-attribute strings of the page-link anchors of a node, in document
(pre)order. -/
def anchorIdsN : XNode → List String
  | .text _ => []
  | .elem tag attrs children =>
      if isPageLinkAnchor tag attrs then
        ((dlookup attrs "id").getD "") :: anchorIdsF children
      else anchorIdsF children

/-- The id-attribute strings of the page-link anchors of a forest. -/
def anchorIdsF : List XNode → List String
  | [] => []
  | n :: t => anchorIdsN n ++ anchorIdsF t

end

mutual

/-- A node with the id of every page-link anchor blanked: two nodes with the
same erasure differ at most in their page-link identifiers. -/
def eraseIdsN : XNode → XNode
  | .text s => .text s
  | .elem tag attrs children =>
      if isPageLinkAnchor tag attrs then
        .elem tag (dinsert attrs "id" "") (eraseIdsF children)
      else .elem tag attrs (eraseIdsF children)

/-- A forest with all page-link anchor ids blanked. -/
def eraseIdsF : List XNode → List XNode
  | [] => []
  | n :: t => eraseIdsN n :: eraseIdsF t

end

/-- The remapping the rich-text rewriter applies to one anchor id string
(spec side of C6): ids that parse as an int in the map become the mapped
value's str(); all others stay unchanged. -/
def remapIdStr (m : IdMap) (s : String) : String :=
  match pyIntParse s with
  | some i =>
      match dlookup m (.int i) with
      | some v => pyStrS v
      | Option.none => s
  | Option.none => s

/-- The warning the rich-text rewriter emits for one anchor id string (spec
side of C6): exactly one warning per anchor whose id is absent from the map. -/
def rtWarnSpec (m : IdMap) (page_id field_name : PyVal) (s : String) : Option String :=
  match pyIntParse s with
  | some i =>
      match dlookup m (.int i) with
      | some _ => Option.none
      | Option.none => some ((mkRtWarn i page_id field_name).toOption.getD "")
  | Option.none => Option.none

mutual

/-- Per-node postcondition of the rich-text anchor rewrite loop. -/
theorem rtNode_spec (m : IdMap) (pid fname : PyVal) :
    ∀ (n n2 : XNode) (ws : List String), rtNode m pid fname n = .ok (n2, ws) →
    anchorIdsN n2 = (anchorIdsN n).map (remapIdStr m) ∧
    ws = (anchorIdsN n).filterMap (rtWarnSpec m pid fname) ∧
    eraseIdsN n2 = eraseIdsN n
  | .text s, n2, ws => by
      intro h
      simp only [rtNode, Except.ok.injEq, Prod.mk.injEq] at h
      obtain ⟨h1, h2⟩ := h
      subst h1 h2
      simp [anchorIdsN, eraseIdsN]
  | .elem tag attrs children, n2, ws => by
      intro h
      simp only [rtNode] at h
      cases hpl : isPageLinkAnchor tag attrs with
      | false =>
          rw [hpl] at h
          simp only [Bool.false_eq_true, if_false, bind, Except.bind] at h
          cases hrec : rtForestGo m pid fname children with
          | error e => rw [hrec] at h; simp at h
          | ok pr =>
              obtain ⟨c2, wsc⟩ := pr
              rw [hrec] at h
              simp only [Except.ok.injEq, Prod.mk.injEq] at h
              obtain ⟨h1, h2⟩ := h
              subst h1 h2
              obtain ⟨ha, hw, he⟩ := rtForestGo_spec m pid fname children c2 wsc hrec
              refine ⟨?_, ?_, ?_⟩
              · simp [anchorIdsN, hpl, ha]
              · simp [anchorIdsN, hpl, hw]
              · simp [eraseIdsN, hpl, he]
      | true =>
          rw [hpl] at h
          simp only [if_true] at h
          have hpl' := hpl
          simp only [isPageLinkAnchor, Bool.and_eq_true, beq_iff_eq,
            Option.isSome_iff_exists] at hpl'
          obtain ⟨⟨htag, idstr, hid⟩, hlink⟩ := hpl'
          rw [hid] at h
          dsimp only at h
          cases hpi : pyIntParse idstr with
          | none => rw [hpi] at h; simp at h
          | some i =>
              rw [hpi] at h
              dsimp only at h
              cases hm : dlookup m (.int i) with
              | some newv =>
                  rw [hm] at h
                  simp only [bind, Except.bind] at h
                  cases hrec : rtForestGo m pid fname children with
                  | error e => rw [hrec] at h; simp at h
                  | ok pr =>
                      obtain ⟨c2, wsc⟩ := pr
                      rw [hrec] at h
                      simp only [Except.ok.injEq, Prod.mk.injEq] at h
                      obtain ⟨h1, h2⟩ := h
                      subst h1 h2
                      obtain ⟨ha, hw, he⟩ := rtForestGo_spec m pid fname children c2 wsc hrec
                      have hpl2 : isPageLinkAnchor tag (dinsert attrs "id" (pyStrS newv)) = true := by
                        simp only [isPageLinkAnchor, Bool.and_eq_true, beq_iff_eq]
                        refine ⟨⟨htag, ?_⟩, ?_⟩
                        · simp [dlookup_dinsert_self]
                        · rw [dlookup_dinsert_ne attrs "id" "linktype" _ (by decide)]
                          exact hlink
                      refine ⟨?_, ?_, ?_⟩
                      · simp only [anchorIdsN, hpl, hpl2, if_true, ha, List.map_cons]
                        rw [dlookup_dinsert_self]
                        simp [remapIdStr, hid, hpi, hm]
                      · simp only [anchorIdsN, hpl, if_true, hw, List.filterMap_cons]
                        rw [hid]
                        simp [rtWarnSpec, hpi, hm]
                      · simp only [eraseIdsN, hpl, hpl2, if_true, he,
                          dinsert_dinsert_same]
              | none =>
                  rw [hm] at h
                  simp only [bind, Except.bind] at h
                  cases hwarn : mkRtWarn i pid fname with
                  | error e => rw [hwarn] at h; simp at h
                  | ok w =>
                      rw [hwarn] at h
                      dsimp only at h
                      cases hrec : rtForestGo m pid fname children with
                      | error e => rw [hrec] at h; simp at h
                      | ok pr =>
                          obtain ⟨c2, wsc⟩ := pr
                          rw [hrec] at h
                          simp only [Except.ok.injEq, Prod.mk.injEq] at h
                          obtain ⟨h1, h2⟩ := h
                          subst h1 h2
                          obtain ⟨ha, hw, he⟩ :=
                            rtForestGo_spec m pid fname children c2 wsc hrec
                          refine ⟨?_, ?_, ?_⟩
                          · simp only [anchorIdsN, hpl, if_true, ha, List.map_cons]
                            rw [hid]
                            simp [remapIdStr, hpi, hm]
                          · simp only [anchorIdsN, hpl, if_true, hw, List.filterMap_cons]
                            rw [hid]
                            simp [rtWarnSpec, hpi, hm, hwarn, Except.toOption]
                          · simp [eraseIdsN, hpl, he]

/-- Per-forest postcondition of the rich-text anchor rewrite loop. -/
theorem rtForestGo_spec (m : IdMap) (pid fname : PyVal) :
    ∀ (ns ns2 : List XNode) (ws : List String),
    rtForestGo m pid fname ns = .ok (ns2, ws) →
    anchorIdsF ns2 = (anchorIdsF ns).map (remapIdStr m) ∧
    ws = (anchorIdsF ns).filterMap (rtWarnSpec m pid fname) ∧
    eraseIdsF ns2 = eraseIdsF ns
  | [], ns2, ws => by
      intro h
      simp only [rtForestGo, Except.ok.injEq, Prod.mk.injEq] at h
      obtain ⟨h1, h2⟩ := h
      subst h1 h2
      simp [anchorIdsF, eraseIdsF]
  | n :: t, ns2, ws => by
      intro h
      simp only [rtForestGo, bind, Except.bind] at h
      cases hn : rtNode m pid fname n with
      | error e => rw [hn] at h; simp at h
      | ok pr =>
          obtain ⟨n2, ws1⟩ := pr
          rw [hn] at h
          dsimp only at h
          cases ht : rtForestGo m pid fname t with
          | error e => rw [ht] at h; simp at h
          | ok pr2 =>
              obtain ⟨t2, ws2⟩ := pr2
              rw [ht] at h
              simp only [Except.ok.injEq, Prod.mk.injEq] at h
              obtain ⟨h1, h2⟩ := h
              subst h1 h2
              obtain ⟨ha1, hw1, he1⟩ := rtNode_spec m pid fname n n2 ws1 hn
              obtain ⟨ha2, hw2, he2⟩ := rtForestGo_spec m pid fname t t2 ws2 ht
              refine ⟨?_, ?_, ?_⟩
              · simp [anchorIdsF, ha1, ha2]
              · simp [anchorIdsF, hw1, hw2]
              · simp [eraseIdsF, he1, he2]

end

/-- C6: postcondition of update_page_fks_in_rich_text on a parseable
fragment whose anchor rewrite succeeds: the returned value is the canonical
serialization of the rewritten tree with the rewrite's warnings (and no
errors or failures); every page-link anchor id that is a key of the map is
replaced by the mapped value, every other anchor id is left unchanged;
exactly one warning is appended per anchor id absent from the map, naming
that id, the host page and the host field; and everything except the anchor
ids (structure, text content, other attributes) is preserved. -/
theorem C6_rich_text_rewrite_postcondition
    (s : String) (pid fname : PyVal) (m : IdMap) (ns ns2 : List XNode)
    (ws : List String)
    (hp : parseFragment s = some ns)
    (hr : rtForestGo m pid fname ns = .ok (ns2, ws)) :
    update_page_fks_in_rich_text (.str s) pid fname m =
      .ok (.str (serializeFragment ns2), ⟨ws, [], []⟩) ∧
    anchorIdsF ns2 = (anchorIdsF ns).map (remapIdStr m) ∧
    ws = (anchorIdsF ns).filterMap (rtWarnSpec m pid fname) ∧
    eraseIdsF ns2 = eraseIdsF ns := by
  obtain ⟨ha, hw, he⟩ := rtForestGo_spec m pid fname ns ns2 ws hr
  refine ⟨?_, ha, hw, he⟩
  simp [update_page_fks_in_rich_text, pyStrS, hp, hr, bind, Except.bind, serializeFragment]

/-- The parsed form of the C6 witness fragment. -/
def C6ns : List XNode :=
  [.elem "p" []
    [.elem "a" [("id", "5"), ("linktype", "page")] [.text "x"],
     .elem "a" [("id", "8"), ("linktype", "page")] [.text "y"]]]

/-- The rewritten form: id 5 remapped to 7, id 8 left with a warning. -/
def C6ns2 : List XNode :=
  [.elem "p" []
    [.elem "a" [("id", "7"), ("linktype", "page")] [.text "x"],
     .elem "a" [("id", "8"), ("linktype", "page")] [.text "y"]]]

/-- Witness for C6 at a concrete fragment with one resolvable and one
unresolvable page-link anchor. -/
theorem C6_rich_text_rewrite_witness :
    update_page_fks_in_rich_text
      (.str "<p><a id=\"5\" linktype=\"page\">x</a><a id=\"8\" linktype=\"page\">y</a></p>")
      (.int 1) (.str "body") [(.int 5, .int 7)] =
      .ok (.str (serializeFragment C6ns2),
        ⟨["Page(id=8) not found in Page(id=1).body in RichText"], [], []⟩) ∧
    anchorIdsF C6ns2 = (anchorIdsF C6ns).map (remapIdStr [(.int 5, .int 7)]) ∧
    ["Page(id=8) not found in Page(id=1).body in RichText"] =
      (anchorIdsF C6ns).filterMap (rtWarnSpec [(.int 5, .int 7)] (.int 1) (.str "body")) ∧
    eraseIdsF C6ns2 = eraseIdsF C6ns :=
  C6_rich_text_rewrite_postcondition
    "<p><a id=\"5\" linktype=\"page\">x</a><a id=\"8\" linktype=\"page\">y</a></p>"
    (.int 1) (.str "body") [(.int 5, .int 7)] C6ns C6ns2
    ["Page(id=8) not found in Page(id=1).body in RichText"] rfl rfl

/- Canonicalization lemmas for C7: the attribute sort is total, produces
sorted output, and is idempotent. -/

theorem charsLeB_total : ∀ xs ys : List Char, charsLeB xs ys = true ∨ charsLeB ys xs = true
  | [], _ => Or.inl rfl
  | _ :: _, [] => Or.inr rfl
  | a :: as, b :: bs => by
      by_cases hab : a < b
      · left; simp [charsLeB, hab]
      · by_cases hba : b < a
        · right; simp [charsLeB, hba]
        · rcases charsLeB_total as bs with h | h
          · left; simp [charsLeB, hab, hba, h]
          · right; simp [charsLeB, hba, hab, h]

theorem attrLeB_total (x y : String × String) : attrLeB x y = true ∨ attrLeB y x = true :=
  charsLeB_total x.1.data y.1.data

/-- Adjacent-pairs sortedness of an attribute list. -/
def attrsSortedB : List (String × String) → Bool
  | [] => true
  | [_] => true
  | x :: y :: t => attrLeB x y && attrsSortedB (y :: t)

theorem insAttr_sortedB (x : String × String) :
    ∀ l, attrsSortedB l = true → attrsSortedB (insAttr x l) = true
  | [] => by
      intro _
      simp [insAttr, attrsSortedB]
  | y :: ys => by
      intro h
      by_cases hle : attrLeB x y = true
      · simp only [insAttr, hle, if_true]
        simp [attrsSortedB, hle, h]
      · have hyx : attrLeB y x = true := (attrLeB_total x y).resolve_left hle
        simp only [insAttr, hle, if_false]
        cases ys with
        | nil => simp [insAttr, attrsSortedB, hyx]
        | cons z zs =>
            have hyz : attrLeB y z = true := by
              simp only [attrsSortedB, Bool.and_eq_true] at h
              exact h.1
            have htail : attrsSortedB (z :: zs) = true := by
              simp only [attrsSortedB, Bool.and_eq_true] at h
              exact h.2
            have ih := insAttr_sortedB x (z :: zs) htail
            by_cases hxz : attrLeB x z = true
            · simp only [insAttr, hxz, if_true] at ih ⊢
              simp [attrsSortedB, hyx, hxz, htail]
            · simp only [insAttr, hxz, if_false] at ih ⊢
              simp only [attrsSortedB, Bool.and_eq_true]
              exact ⟨hyz, by simpa using ih⟩

theorem sortAttrs_sortedB : ∀ l, attrsSortedB (sortAttrs l) = true
  | [] => rfl
  | x :: xs => insAttr_sortedB x (sortAttrs xs) (sortAttrs_sortedB xs)

theorem sortAttrs_of_sortedB : ∀ l, attrsSortedB l = true → sortAttrs l = l
  | [] => fun _ => rfl
  | [x] => fun _ => by simp [sortAttrs, insAttr]
  | x :: y :: t => by
      intro h
      have hxy : attrLeB x y = true := by
        simp only [attrsSortedB, Bool.and_eq_true] at h
        exact h.1
      have ht : attrsSortedB (y :: t) = true := by
        simp only [attrsSortedB, Bool.and_eq_true] at h
        exact h.2
      have ih := sortAttrs_of_sortedB (y :: t) ht
      show insAttr x (sortAttrs (y :: t)) = x :: y :: t
      rw [ih]
      simp [insAttr, hxy]

theorem sortAttrs_idem (l : List (String × String)) :
    sortAttrs (sortAttrs l) = sortAttrs l :=
  sortAttrs_of_sortedB _ (sortAttrs_sortedB l)

mutual

/-- The canonical form of a node: attributes recursively sorted by name
(what reparsing a canonically serialized node yields). -/
def canonN : XNode → XNode
  | .text s => .text s
  | .elem tag attrs children => .elem tag (sortAttrs attrs) (canonF children)

/-- The canonical form of a forest. -/
def canonF : List XNode → List XNode
  | [] => []
  | n :: t => canonN n :: canonF t

end

mutual

/-- Canonical serialization is invariant under canonicalization. -/
theorem c14nNode_canon : ∀ n, c14nNode (canonN n) = c14nNode n
  | .text s => rfl
  | .elem tag attrs children => by
      simp only [canonN, c14nNode, sortAttrs_idem, c14nForest_canon children]

/-- Canonical serialization of a forest is invariant under canonicalization. -/
theorem c14nForest_canon : ∀ ns, c14nForest (canonF ns) = c14nForest ns
  | [] => rfl
  | n :: t => by
      simp only [canonF, c14nForest, c14nNode_canon n, c14nForest_canon t]

end

theorem insAttr_perm (x : String × String) :
    ∀ l, List.Perm (insAttr x l) (x :: l)
  | [] => List.Perm.refl _
  | y :: ys => by
      by_cases hle : attrLeB x y = true
      · simp [insAttr, hle]
      · simp only [insAttr, hle, if_false]
        exact ((insAttr_perm x ys).cons y).trans (List.Perm.swap x y ys)

theorem sortAttrs_perm : ∀ l : List (String × String), List.Perm (sortAttrs l) l
  | [] => List.Perm.refl _
  | x :: xs => (insAttr_perm x (sortAttrs xs)).trans ((sortAttrs_perm xs).cons x)

theorem mem_keys_sortAttrs {l : List (String × String)} {k : String} :
    k ∈ (sortAttrs l).map Prod.fst ↔ k ∈ l.map Prod.fst :=
  ((sortAttrs_perm l).map Prod.fst).mem_iff

theorem nodup_keys_sortAttrs {l : List (String × String)}
    (h : (l.map Prod.fst).Nodup) : ((sortAttrs l).map Prod.fst).Nodup :=
  (((sortAttrs_perm l).map Prod.fst).symm.nodup_iff).mp h

theorem dlookup_insAttr_notmem (x : String × String) :
    ∀ (l : List (String × String)), x.1 ∉ l.map Prod.fst → ∀ k,
    dlookup (insAttr x l) k = if x.1 = k then some x.2 else dlookup l k
  | [], _, k => by simp [insAttr, dlookup]
  | y :: ys, hx, k => by
      have hxy : x.1 ≠ y.1 := by
        intro he
        exact hx (by simp [he])
      by_cases hle : attrLeB x y = true
      · simp [insAttr, hle, dlookup]
      · simp only [insAttr, hle, if_false]
        have ih := dlookup_insAttr_notmem x ys (fun hm => hx (by simp [hm])) k
        by_cases hxk : x.1 = k
        · subst hxk
          have hyk : y.1 ≠ x.1 := fun he => hxy he.symm
          simp [dlookup, ih, hyk]
        · simp [dlookup, ih, hxk]

theorem dlookup_sortAttrs :
    ∀ (l : List (String × String)), (l.map Prod.fst).Nodup → ∀ k,
    dlookup (sortAttrs l) k = dlookup l k
  | [], _, k => rfl
  | x :: xs, hnd, k => by
      simp only [List.map_cons, List.nodup_cons] at hnd
      have hx : x.1 ∉ (sortAttrs xs).map Prod.fst :=
        fun hm => hnd.1 (mem_keys_sortAttrs.mp hm)
      show dlookup (insAttr x (sortAttrs xs)) k = _
      rw [dlookup_insAttr_notmem x (sortAttrs xs) hx k,
        dlookup_sortAttrs xs hnd.2 k]
      by_cases hxk : x.1 = k
      · subst hxk
        simp [dlookup]
      · simp [dlookup, hxk]

/-- Replace the value at key k, leaving every other pair unchanged. -/
def updVal (k v : String) (p : String × String) : String × String :=
  if p.1 = k then (p.1, v) else p

theorem updVal_fst (k v : String) (p : String × String) : (updVal k v p).1 = p.1 := by
  unfold updVal
  split <;> rfl

theorem map_updVal_id (k v : String) :
    ∀ t : List (String × String), k ∉ t.map Prod.fst → t.map (updVal k v) = t
  | [], _ => rfl
  | p :: ps, h => by
      have hp : p.1 ≠ k := by
        intro he
        exact h (by simp [he])
      simp only [List.map_cons, updVal, hp, if_false,
        map_updVal_id k v ps (fun hm => h (by simp [hm]))]

theorem dinsert_eq_map_updVal (k v : String) :
    ∀ l : List (String × String), k ∈ l.map Prod.fst → (l.map Prod.fst).Nodup →
    dinsert l k v = l.map (updVal k v)
  | [], hm, _ => by simp at hm
  | (k0, v0) :: t, hm, hnd => by
      simp only [List.map_cons, List.nodup_cons] at hnd
      by_cases h0 : k0 = k
      · subst h0
        simp only [dinsert, if_true, List.map_cons, updVal, if_pos rfl]
        rw [map_updVal_id k0 v t hnd.1]
      · have hmt : k ∈ t.map Prod.fst := by
          rcases List.mem_map.mp hm with ⟨p, hp, he⟩
          rcases List.mem_cons.mp hp with hp | hp
          · exact absurd (by rw [hp] at he; exact he) h0
          · exact he ▸ List.mem_map_of_mem _ hp
        simp only [dinsert, h0, if_false, List.map_cons, updVal]
        rw [dinsert_eq_map_updVal k v t hmt hnd.2]

theorem insAttr_map_updVal (k v : String) (x : String × String) :
    ∀ l : List (String × String),
    insAttr (updVal k v x) (l.map (updVal k v)) = (insAttr x l).map (updVal k v)
  | [] => rfl
  | y :: ys => by
      have hcmp : attrLeB (updVal k v x) (updVal k v y) = attrLeB x y := by
        simp [attrLeB, updVal_fst]
      by_cases hle : attrLeB x y = true
      · simp [insAttr, hle, hcmp]
      · simp only [List.map_cons, insAttr, hcmp]
        rw [if_neg hle, if_neg hle]
        simp only [List.map_cons, insAttr_map_updVal k v x ys]

theorem sortAttrs_map_updVal (k v : String) :
    ∀ l : List (String × String),
    sortAttrs (l.map (updVal k v)) = (sortAttrs l).map (updVal k v)
  | [] => rfl
  | x :: xs => by
      show insAttr (updVal k v x) (sortAttrs (xs.map (updVal k v))) = _
      rw [sortAttrs_map_updVal k v xs, insAttr_map_updVal]
      rfl

theorem sortAttrs_dinsert (l : List (String × String)) (k v : String)
    (hm : k ∈ l.map Prod.fst) (hnd : (l.map Prod.fst).Nodup) :
    sortAttrs (dinsert l k v) = dinsert (sortAttrs l) k v := by
  rw [dinsert_eq_map_updVal k v l hm hnd, sortAttrs_map_updVal,
    ← dinsert_eq_map_updVal k v (sortAttrs l) (mem_keys_sortAttrs.mpr hm)
      (nodup_keys_sortAttrs hnd)]

theorem dlookup_mem_keys {κ α : Type} [DecidableEq κ] :
    ∀ {l : List (κ × α)} {k : κ} {v : α}, dlookup l k = some v → k ∈ l.map Prod.fst := by
  intro l
  induction l with
  | nil => intro k v h; simp [dlookup] at h
  | cons hd t ih =>
      intro k v h
      obtain ⟨k0, v0⟩ := hd
      simp only [dlookup] at h
      split at h
      · simp_all
      · simp [ih h]

theorem isPageLinkAnchor_sortAttrs {tag : String} {attrs : List (String × String)}
    (hnd : (attrs.map Prod.fst).Nodup) :
    isPageLinkAnchor tag (sortAttrs attrs) = isPageLinkAnchor tag attrs := by
  unfold isPageLinkAnchor
  rw [dlookup_sortAttrs attrs hnd "id", dlookup_sortAttrs attrs hnd "linktype"]

mutual

/-- Duplicate-free attribute names, per node. -/
def attrsNodupN : XNode → Bool
  | .text _ => true
  | .elem _ attrs children =>
      decide ((attrs.map Prod.fst).Nodup) && attrsNodupF children

/-- Duplicate-free attribute names, per forest. -/
def attrsNodupF : List XNode → Bool
  | [] => true
  | n :: t => attrsNodupN n && attrsNodupF t

end

mutual

/-- The anchor rewrite commutes with canonicalization, provided attribute
names are duplicate-free. -/
theorem rtNode_canon (m : IdMap) (pid fname : PyVal) :
    ∀ (n n2 : XNode) (ws : List String), attrsNodupN n = true →
    rtNode m pid fname n = .ok (n2, ws) →
    rtNode m pid fname (canonN n) = .ok (canonN n2, ws)
  | .text s, n2, ws => by
      intro _ h
      simp only [rtNode, Except.ok.injEq, Prod.mk.injEq] at h
      obtain ⟨h1, h2⟩ := h
      subst h1 h2
      simp [canonN, rtNode]
  | .elem tag attrs children, n2, ws => by
      intro hnd h
      simp only [attrsNodupN, Bool.and_eq_true, decide_eq_true_eq] at hnd
      obtain ⟨hka, hndc⟩ := hnd
      simp only [rtNode] at h
      simp only [canonN, rtNode, isPageLinkAnchor_sortAttrs hka]
      cases hpl : isPageLinkAnchor tag attrs with
      | false =>
          rw [hpl] at h
          simp only [Bool.false_eq_true, if_false, bind, Except.bind] at h ⊢
          cases hrec : rtForestGo m pid fname children with
          | error e => rw [hrec] at h; simp at h
          | ok pr =>
              obtain ⟨c2, wsc⟩ := pr
              rw [hrec] at h
              simp only [Except.ok.injEq, Prod.mk.injEq] at h
              obtain ⟨h1, h2⟩ := h
              subst h1 h2
              rw [rtForestGo_canon m pid fname children c2 wsc hndc hrec]
              simp [canonN]
      | true =>
          rw [hpl] at h
          simp only [if_true] at h ⊢
          cases hid : dlookup attrs "id" with
          | none => rw [hid] at h; simp at h
          | some idstr =>
              rw [hid] at h
              rw [dlookup_sortAttrs attrs hka "id", hid]
              dsimp only at h ⊢
              cases hpi : pyIntParse idstr with
              | none => rw [hpi] at h; simp at h
              | some i =>
                  rw [hpi] at h
                  dsimp only at h ⊢
                  cases hm : dlookup m (.int i) with
                  | some newv =>
                      rw [hm] at h
                      simp only [bind, Except.bind] at h ⊢
                      cases hrec : rtForestGo m pid fname children with
                      | error e => rw [hrec] at h; simp at h
                      | ok pr =>
                          obtain ⟨c2, wsc⟩ := pr
                          rw [hrec] at h
                          simp only [Except.ok.injEq, Prod.mk.injEq] at h
                          obtain ⟨h1, h2⟩ := h
                          subst h1 h2
                          rw [rtForestGo_canon m pid fname children c2 wsc hndc hrec]
                          simp [canonN, sortAttrs_dinsert attrs "id" (pyStrS newv)
                            (dlookup_mem_keys hid) hka]
                  | none =>
                      rw [hm] at h
                      simp only [bind, Except.bind] at h ⊢
                      cases hwarn : mkRtWarn i pid fname with
                      | error e => rw [hwarn] at h; simp at h
                      | ok w =>
                          rw [hwarn] at h
                          dsimp only at h ⊢
                          cases hrec : rtForestGo m pid fname children with
                          | error e => rw [hrec] at h; simp at h
                          | ok pr =>
                              obtain ⟨c2, wsc⟩ := pr
                              rw [hrec] at h
                              simp only [Except.ok.injEq, Prod.mk.injEq] at h
                              obtain ⟨h1, h2⟩ := h
                              subst h1 h2
                              rw [rtForestGo_canon m pid fname children c2 wsc hndc hrec]
                              simp [canonN]

/-- Forest version of rtNode_canon. -/
theorem rtForestGo_canon (m : IdMap) (pid fname : PyVal) :
    ∀ (ns ns2 : List XNode) (ws : List String), attrsNodupF ns = true →
    rtForestGo m pid fname ns = .ok (ns2, ws) →
    rtForestGo m pid fname (canonF ns) = .ok (canonF ns2, ws)
  | [], ns2, ws => by
      intro _ h
      simp only [rtForestGo, Except.ok.injEq, Prod.mk.injEq] at h
      obtain ⟨h1, h2⟩ := h
      subst h1 h2
      simp [canonF, rtForestGo]
  | n :: t, ns2, ws => by
      intro hnd h
      simp only [attrsNodupF, Bool.and_eq_true] at hnd
      simp only [rtForestGo, bind, Except.bind] at h
      cases hn : rtNode m pid fname n with
      | error e => rw [hn] at h; simp at h
      | ok pr =>
          obtain ⟨n2, ws1⟩ := pr
          rw [hn] at h
          dsimp only at h
          cases ht : rtForestGo m pid fname t with
          | error e => rw [ht] at h; simp at h
          | ok pr2 =>
              obtain ⟨t2, ws2⟩ := pr2
              rw [ht] at h
              simp only [Except.ok.injEq, Prod.mk.injEq] at h
              obtain ⟨h1, h2⟩ := h
              subst h1 h2
              simp only [canonF, rtForestGo, bind, Except.bind,
                rtNode_canon m pid fname n n2 ws1 hnd.1 hn,
                rtForestGo_canon m pid fname t t2 ws2 hnd.2 ht]

end

mutual

/-- Rewriting a node the rewriter has already produced changes nothing,
provided the identifier map is int-valued and idempotent and the host page
id formats (the warning branch can re-run). -/
theorem rtNode_idem (m : IdMap) (pid fname : PyVal)
    (hIdem : ∀ a b, dlookup m a = some b →
      dlookup m b = Option.none ∨ dlookup m b = some b)
    (hInt : ∀ a b, dlookup m a = some b → ∃ k, b = .int k)
    (hpidOk : ∃ d, pyFmtD pid = .ok d) :
    ∀ (n n2 : XNode) (ws : List String), rtNode m pid fname n = .ok (n2, ws) →
    ∃ ws2, rtNode m pid fname n2 = .ok (n2, ws2)
  | .text s, n2, ws => by
      intro h
      simp only [rtNode, Except.ok.injEq, Prod.mk.injEq] at h
      obtain ⟨h1, _⟩ := h
      subst h1
      exact ⟨[], rfl⟩
  | .elem tag attrs children, n2, ws => by
      intro h
      simp only [rtNode] at h
      cases hpl : isPageLinkAnchor tag attrs with
      | false =>
          rw [hpl] at h
          simp only [Bool.false_eq_true, if_false, bind, Except.bind] at h
          cases hrec : rtForestGo m pid fname children with
          | error e => rw [hrec] at h; simp at h
          | ok pr =>
              obtain ⟨c2, wsc⟩ := pr
              rw [hrec] at h
              simp only [Except.ok.injEq, Prod.mk.injEq] at h
              obtain ⟨h1, _⟩ := h
              subst h1
              obtain ⟨ws2, hrec2⟩ :=
                rtForestGo_idem m pid fname hIdem hInt hpidOk children c2 wsc hrec
              exact ⟨ws2, by simp [rtNode, hpl, hrec2, bind, Except.bind]⟩
      | true =>
          rw [hpl] at h
          simp only [if_true] at h
          cases hid : dlookup attrs "id" with
          | none => rw [hid] at h; simp at h
          | some idstr =>
              rw [hid] at h
              dsimp only at h
              cases hpi : pyIntParse idstr with
              | none => rw [hpi] at h; simp at h
              | some i =>
                  rw [hpi] at h
                  dsimp only at h
                  cases hm : dlookup m (.int i) with
                  | some newv =>
                      rw [hm] at h
                      simp only [bind, Except.bind] at h
                      cases hrec : rtForestGo m pid fname children with
                      | error e => rw [hrec] at h; simp at h
                      | ok pr =>
                          obtain ⟨c2, wsc⟩ := pr
                          rw [hrec] at h
                          simp only [Except.ok.injEq, Prod.mk.injEq] at h
                          obtain ⟨h1, _⟩ := h
                          subst h1
                          obtain ⟨k, hk⟩ := hInt _ _ hm
                          subst hk
                          obtain ⟨ws2, hrec2⟩ :=
                            rtForestGo_idem m pid fname hIdem hInt hpidOk children c2 wsc hrec
                          have hattrs : dlookup (dinsert attrs "id" (pyStrS (.int k))) "id" =
                              some (pyIntStr k) := by
                            simp [dlookup_dinsert_self, pyStrS]
                          have hpl2 : isPageLinkAnchor tag
                              (dinsert attrs "id" (pyStrS (.int k))) = true := by
                            have hpl' := hpl
                            simp only [isPageLinkAnchor, Bool.and_eq_true, beq_iff_eq] at hpl' ⊢
                            refine ⟨⟨hpl'.1.1, ?_⟩, ?_⟩
                            · simp [hattrs]
                            · rw [dlookup_dinsert_ne attrs "id" "linktype" _ (by decide)]
                              exact hpl'.2
                          rcases hIdem _ _ hm with hm2 | hm2
                          · obtain ⟨d, hd⟩ := hpidOk
                            refine ⟨("Page(id=" ++ pyIntStr k ++ ") not found in Page(id=" ++
                              d ++ ")." ++ pyStrS fname ++ " in RichText") :: ws2, ?_⟩
                            simp [rtNode, hpl2, hattrs, pyIntParse_pyIntStr, hm2, hrec2,
                              mkRtWarn, hd, bind, Except.bind]
                          · refine ⟨ws2, ?_⟩
                            simp [rtNode, hpl2, hattrs, pyIntParse_pyIntStr, hm2, hrec2,
                              bind, Except.bind, dinsert_dinsert_same]
                  | none =>
                      rw [hm] at h
                      simp only [bind, Except.bind] at h
                      cases hwarn : mkRtWarn i pid fname with
                      | error e => rw [hwarn] at h; simp at h
                      | ok w =>
                          rw [hwarn] at h
                          dsimp only at h
                          cases hrec : rtForestGo m pid fname children with
                          | error e => rw [hrec] at h; simp at h
                          | ok pr =>
                              obtain ⟨c2, wsc⟩ := pr
                              rw [hrec] at h
                              simp only [Except.ok.injEq, Prod.mk.injEq] at h
                              obtain ⟨h1, _⟩ := h
                              subst h1
                              obtain ⟨ws2, hrec2⟩ :=
                                rtForestGo_idem m pid fname hIdem hInt hpidOk children c2 wsc hrec
                              exact ⟨w :: ws2, by
                                simp [rtNode, hpl, hid, hpi, hm, hwarn, hrec2,
                                  bind, Except.bind]⟩

/-- Forest version of rtNode_idem. -/
theorem rtForestGo_idem (m : IdMap) (pid fname : PyVal)
    (hIdem : ∀ a b, dlookup m a = some b →
      dlookup m b = Option.none ∨ dlookup m b = some b)
    (hInt : ∀ a b, dlookup m a = some b → ∃ k, b = .int k)
    (hpidOk : ∃ d, pyFmtD pid = .ok d) :
    ∀ (ns ns2 : List XNode) (ws : List String),
    rtForestGo m pid fname ns = .ok (ns2, ws) →
    ∃ ws2, rtForestGo m pid fname ns2 = .ok (ns2, ws2)
  | [], ns2, ws => by
      intro h
      simp only [rtForestGo, Except.ok.injEq, Prod.mk.injEq] at h
      obtain ⟨h1, _⟩ := h
      subst h1
      exact ⟨[], rfl⟩
  | n :: t, ns2, ws => by
      intro h
      simp only [rtForestGo, bind, Except.bind] at h
      cases hn : rtNode m pid fname n with
      | error e => rw [hn] at h; simp at h
      | ok pr =>
          obtain ⟨n2, ws1⟩ := pr
          rw [hn] at h
          dsimp only at h
          cases ht : rtForestGo m pid fname t with
          | error e => rw [ht] at h; simp at h
          | ok pr2 =>
              obtain ⟨t2, ws2⟩ := pr2
              rw [ht] at h
              simp only [Except.ok.injEq, Prod.mk.injEq] at h
              obtain ⟨h1, _⟩ := h
              subst h1
              obtain ⟨wa, ha⟩ := rtNode_idem m pid fname hIdem hInt hpidOk n n2 ws1 hn
              obtain ⟨wb, hb⟩ := rtForestGo_idem m pid fname hIdem hInt hpidOk t t2 ws2 ht
              exact ⟨wa ++ wb, by simp [rtForestGo, ha, hb, bind, Except.bind]⟩

end

mutual

/-- A node with no page-link anchors is returned unchanged with no warnings. -/
theorem rtNode_no_anchors (m : IdMap) (pid fname : PyVal) :
    ∀ n : XNode, anchorIdsN n = [] → rtNode m pid fname n = .ok (n, [])
  | .text s => by
      intro _
      rfl
  | .elem tag attrs children => by
      intro h
      cases hpl : isPageLinkAnchor tag attrs with
      | true =>
          exfalso
          simp [anchorIdsN, hpl] at h
      | false =>
          have hc : anchorIdsF children = [] := by
            simpa [anchorIdsN, hpl] using h
          simp [rtNode, hpl, rtForestGo_no_anchors m pid fname children hc,
            bind, Except.bind]

/-- A forest with no page-link anchors is returned unchanged, no warnings. -/
theorem rtForestGo_no_anchors (m : IdMap) (pid fname : PyVal) :
    ∀ ns : List XNode, anchorIdsF ns = [] → rtForestGo m pid fname ns = .ok (ns, [])
  | [] => by
      intro _
      rfl
  | n :: t => by
      intro h
      rw [show anchorIdsF (n :: t) = anchorIdsN n ++ anchorIdsF t from rfl] at h
      have hn : anchorIdsN n = [] := (List.append_eq_nil.mp h).1
      have ht : anchorIdsF t = [] := (List.append_eq_nil.mp h).2
      simp [rtForestGo, rtNode_no_anchors m pid fname n hn,
        rtForestGo_no_anchors m pid fname t ht, bind, Except.bind]

end

/-- Canonical serialization of a fragment is invariant under
canonicalization of the parsed forest. -/
theorem serializeFragment_canon (ns : List XNode) :
    serializeFragment (canonF ns) = serializeFragment ns := by
  unfold serializeFragment richtext_element_to_string
  simp only [c14nNode, c14nForest_canon]

theorem wfF_cons {n : XNode} {t : List XNode} (h : wfF (n :: t) = true) :
    wfN n = true ∧ wfF t = true := by
  cases t with
  | nil => exact ⟨h, rfl⟩
  | cons m t' =>
      simp only [wfF, Bool.and_eq_true] at h
      exact ⟨h.1.1, h.2⟩

theorem wfF_text_next {s : String} {t : List XNode}
    (h : wfF (.text s :: t) = true) :
    t = [] ∨ ∃ tag attrs cs t', t = .elem tag attrs cs :: t' := by
  cases t with
  | nil => exact Or.inl rfl
  | cons m t' =>
      cases m with
      | text s2 =>
          exfalso
          simp [wfF, isTextNode] at h
      | elem tag attrs cs => exact Or.inr ⟨tag, attrs, cs, t', rfl⟩

theorem escTextChar_not_lt (c : Char) : '<' ∉ escTextChar c := by
  unfold escTextChar
  split <;> simp_all [eq_comm]

theorem escAttrChar_not_lt (c : Char) : '<' ∉ escAttrChar c := by
  unfold escAttrChar
  split <;> simp_all [eq_comm]

theorem escAttrChar_not_quot (c : Char) : '"' ∉ escAttrChar c := by
  unfold escAttrChar
  split <;> simp_all [eq_comm]

theorem escText_not_lt (s : String) : '<' ∉ escText s := by
  simp only [escText, List.mem_flatten]
  rintro ⟨l, hl, hmem⟩
  simp only [List.mem_map] at hl
  obtain ⟨c, _, rfl⟩ := hl
  exact escTextChar_not_lt c hmem

theorem escAttr_not_lt (s : String) : '<' ∉ escAttr s := by
  simp only [escAttr, List.mem_flatten]
  rintro ⟨l, hl, hmem⟩
  simp only [List.mem_map] at hl
  obtain ⟨c, _, rfl⟩ := hl
  exact escAttrChar_not_lt c hmem

theorem escAttr_not_quot (s : String) : '"' ∉ escAttr s := by
  simp only [escAttr, List.mem_flatten]
  rintro ⟨l, hl, hmem⟩
  simp only [List.mem_map] at hl
  obtain ⟨c, _, rfl⟩ := hl
  exact escAttrChar_not_quot c hmem

set_option maxHeartbeats 1000000 in
theorem unescape_cons (c : Char) (hc : c ≠ '&') (l : List Char) :
    unescapeChars (c :: l) = (c :: ·) <$> unescapeChars l := by
  rw [unescapeChars.eq_def]
  split <;> simp_all

theorem escTextChar_default (c : Char) (h1 : c ≠ '&') (h2 : c ≠ '<') (h3 : c ≠ '>') :
    escTextChar c = [c] := by
  unfold escTextChar
  split <;> simp_all

theorem escAttrChar_default (c : Char) (h1 : c ≠ '&') (h2 : c ≠ '<') (h3 : c ≠ '"') :
    escAttrChar c = [c] := by
  unfold escAttrChar
  split <;> simp_all

theorem unescape_escTextChar (c : Char) (rest : List Char) :
    unescapeChars (escTextChar c ++ rest) = (c :: ·) <$> unescapeChars rest := by
  by_cases h1 : c = '&'
  · subst h1; rfl
  · by_cases h2 : c = '<'
    · subst h2; rfl
    · by_cases h3 : c = '>'
      · subst h3; rfl
      · rw [escTextChar_default c h1 h2 h3]
        exact unescape_cons c h1 rest

theorem unescape_escAttrChar (c : Char) (rest : List Char) :
    unescapeChars (escAttrChar c ++ rest) = (c :: ·) <$> unescapeChars rest := by
  by_cases h1 : c = '&'
  · subst h1; rfl
  · by_cases h2 : c = '<'
    · subst h2; rfl
    · by_cases h3 : c = '"'
      · subst h3; rfl
      · rw [escAttrChar_default c h1 h2 h3]
        exact unescape_cons c h1 rest

theorem unescape_escText_go : ∀ (l rest : List Char),
    unescapeChars ((l.map escTextChar).flatten ++ rest) = (l ++ ·) <$> unescapeChars rest
  | [], rest => by
      cases h : unescapeChars rest <;> simp [h]
  | c :: l, rest => by
      simp only [List.map_cons, List.flatten_cons, List.append_assoc]
      rw [unescape_escTextChar c _, unescape_escText_go l rest]
      cases unescapeChars rest <;> rfl

theorem unescape_escAttr_go : ∀ (l rest : List Char),
    unescapeChars ((l.map escAttrChar).flatten ++ rest) = (l ++ ·) <$> unescapeChars rest
  | [], rest => by
      cases h : unescapeChars rest <;> simp [h]
  | c :: l, rest => by
      simp only [List.map_cons, List.flatten_cons, List.append_assoc]
      rw [unescape_escAttrChar c _, unescape_escAttr_go l rest]
      cases unescapeChars rest <;> rfl

theorem unescape_escText (s : String) : unescapeChars (escText s) = some s.data := by
  have h := unescape_escText_go s.data []
  simpa [escText, show unescapeChars [] = some [] from rfl] using h

theorem unescape_escAttr (s : String) : unescapeChars (escAttr s) = some s.data := by
  have h := unescape_escAttr_go s.data []
  simpa [escAttr, show unescapeChars [] = some [] from rfl] using h

theorem takeWhile_append_all {p : Char → Bool} : ∀ (a b : List Char),
    (∀ c ∈ a, p c = true) → (a ++ b).takeWhile p = a ++ b.takeWhile p
  | [], b, _ => rfl
  | c :: a, b, h => by
      have hc : p c = true := h c (by simp)
      simp only [List.cons_append, List.takeWhile_cons, hc, if_true]
      rw [takeWhile_append_all a b (fun x hx => h x (by simp [hx]))]

theorem dropWhile_append_all {p : Char → Bool} : ∀ (a b : List Char),
    (∀ c ∈ a, p c = true) → (a ++ b).dropWhile p = b.dropWhile p
  | [], b, _ => rfl
  | c :: a, b, h => by
      have hc : p c = true := h c (by simp)
      simp only [List.cons_append, List.dropWhile_cons, hc, if_true]
      rw [dropWhile_append_all a b (fun x hx => h x (by simp [hx]))]

theorem lexName_exact (tag : String) (z : List Char)
    (hne : tag.data ≠ []) (hnc : ∀ c ∈ tag.data, isNameChar c = true)
    (hz : z = [] ∨ ∃ c w, z = c :: w ∧ isNameChar c = false) :
    lexName (tag.data ++ z) = some (tag, z) := by
  have hzt : z.takeWhile isNameChar = [] := by
    rcases hz with rfl | ⟨c, w, rfl, hc⟩
    · rfl
    · simp [List.takeWhile_cons, hc]
  have hzd : z.dropWhile isNameChar = z := by
    rcases hz with rfl | ⟨c, w, rfl, hc⟩
    · rfl
    · simp [List.dropWhile_cons, hc]
  have hemp2 : tag.data.isEmpty = false := by
    cases h : tag.data with
    | nil => exact absurd h hne
    | cons c l => rfl
  simp only [lexName, takeWhile_append_all _ _ hnc, dropWhile_append_all _ _ hnc,
    hzt, hzd, List.append_nil, hemp2, Bool.false_eq_true, if_false]

theorem parseAttrs_roundtrip (as : List (String × String)) :
    ∀ (fuel : Nat) (Z : List Char),
    as.length < fuel →
    (∀ a ∈ as, a.1.data ≠ [] ∧ ∀ c ∈ a.1.data, isNameChar c = true) →
    parseAttrsAux fuel ((as.map renderAttr).flatten ++ '>' :: Z) = some (as, '>' :: Z) := by
  induction as with
  | nil =>
      intro fuel Z hf _
      cases fuel with
      | zero => omega
      | succ f => simp [parseAttrsAux, List.dropWhile_cons]
  | cons a as ih =>
      obtain ⟨n, v⟩ := a
      intro fuel Z hf hwf
      cases fuel with
      | zero => omega
      | succ f =>
      obtain ⟨hne, hnc⟩ := hwf (n, v) (by simp)
      have hinput : (((n, v) :: as).map renderAttr).flatten ++ '>' :: Z =
          ' ' :: (n.data ++ ('=' :: '"' :: (escAttr v ++ '"' ::
            ((as.map renderAttr).flatten ++ '>' :: Z)))) := by
        simp [renderAttr, List.append_assoc]
      rw [hinput]
      rw [parseAttrsAux.eq_def]
      dsimp only
      cases hn : n.data with
      | nil => exact absurd hn hne
      | cons c nd =>
      have hcnam : isNameChar c = true := hnc c (by rw [hn]; simp)
      have hcne : ∀ d : Char, isNameChar d = false → c ≠ d := by
        intro d hd he
        rw [he, hd] at hcnam
        exact Bool.noConfusion hcnam
      have hdw : List.dropWhile (fun c => decide (c = ' '))
          (' ' :: (c :: nd ++ '=' :: '"' :: (escAttr v ++ '"' ::
            ((List.map renderAttr as).flatten ++ '>' :: Z)))) =
          c :: (nd ++ '=' :: '"' :: (escAttr v ++ '"' ::
            ((List.map renderAttr as).flatten ++ '>' :: Z))) := by
        simp only [List.cons_append, List.dropWhile_cons, decide_True, if_true]
        rw [if_neg (by simp only [decide_eq_true_eq]; exact hcne ' ' (by decide))]
      rw [hdw]
      split
      · rename_i heq
        exact absurd heq (List.cons_ne_nil _ _)
      · rename_i cs1 tail heq
        have hc := ((List.cons.injEq _ _ _ _).mp heq).1
        rw [hc] at hcnam
        exact absurd hcnam (by decide)
      · rename_i cs1 tail heq
        have hc := ((List.cons.injEq _ _ _ _).mp heq).1
        rw [hc] at hcnam
        exact absurd hcnam (by decide)
      · have hb : c :: (nd ++ '=' :: '"' :: (escAttr v ++ '"' ::
            ((List.map renderAttr as).flatten ++ '>' :: Z))) =
            n.data ++ ('=' :: '"' :: (escAttr v ++ '"' ::
              ((List.map renderAttr as).flatten ++ '>' :: Z))) := by
          rw [hn]
          rfl
        rw [hb, lexName_exact n _ hne hnc (Or.inr ⟨'=', _, rfl, by decide⟩)]
        simp only [Option.pure_def, Option.bind_eq_bind, Option.some_bind]
        have hq : ∀ d ∈ escAttr v, decide (d ≠ '"') = true := by
          intro d hd
          rw [decide_eq_true_eq]
          intro he
          rw [he] at hd
          exact escAttr_not_quot v hd
        have htk : List.takeWhile (fun c => decide (c ≠ '"'))
            (escAttr v ++ '"' :: ((List.map renderAttr as).flatten ++ '>' :: Z)) =
            escAttr v := by
          rw [@takeWhile_append_all (fun c => decide (c ≠ '"')) (escAttr v)
            ('"' :: ((List.map renderAttr as).flatten ++ '>' :: Z)) hq]
          simp [List.takeWhile_cons]
        have hdk : List.dropWhile (fun c => decide (c ≠ '"'))
            (escAttr v ++ '"' :: ((List.map renderAttr as).flatten ++ '>' :: Z)) =
            '"' :: ((List.map renderAttr as).flatten ++ '>' :: Z) := by
          rw [@dropWhile_append_all (fun c => decide (c ≠ '"')) (escAttr v)
            ('"' :: ((List.map renderAttr as).flatten ++ '>' :: Z)) hq]
          simp [List.dropWhile_cons]
        rw [htk, unescape_escAttr v, hdk]
        simp only [Option.some_bind]
        rw [ih f Z (by simpa using hf) (fun a ha => hwf a (by simp [ha]))]
        simp only [Option.some_bind]

theorem wfN_elem_parts {tag : String} {attrs : List (String × String)}
    {children : List XNode} (h : wfN (.elem tag attrs children) = true) :
    tag.data ≠ [] ∧ (∀ c ∈ tag.data, isNameChar c = true) ∧ tag ≠ "richtext" ∧
    (∀ a ∈ attrs, a.1.data ≠ [] ∧ ∀ c ∈ a.1.data, isNameChar c = true) ∧
    (attrs.map Prod.fst).Nodup ∧ wfF children = true := by
  simp only [wfN, Bool.and_eq_true, Bool.not_eq_true', List.all_eq_true,
    decide_eq_true_eq, beq_eq_false_iff_ne] at h
  obtain ⟨⟨⟨⟨⟨h1, h2⟩, h3⟩, h4⟩, h5⟩, h6⟩ := h
  refine ⟨?_, h2, h3, ?_, h5, h6⟩
  · intro h0
    rw [h0] at h1
    exact Bool.noConfusion h1
  · intro a ha
    obtain ⟨ha1, ha2⟩ := h4 a ha
    refine ⟨?_, ha2⟩
    intro h0
    rw [h0] at ha1
    exact Bool.noConfusion ha1

theorem escTextChar_head (c : Char) :
    ∃ e es, escTextChar c = e :: es ∧ e ≠ '<' := by
  unfold escTextChar
  split
  · exact ⟨'&', _, rfl, by decide⟩
  · exact ⟨'&', _, rfl, by decide⟩
  · exact ⟨'&', _, rfl, by decide⟩
  · rename_i h1 h2 h3
    exact ⟨c, [], rfl, h2⟩

theorem escText_shape {s : String} (hne : s.data ≠ []) :
    ∃ e es, escText s = e :: es ∧ e ≠ '<' := by
  cases hd : s.data with
  | nil => exact absurd hd hne
  | cons c sd =>
      obtain ⟨e, es, he, hlt⟩ := escTextChar_head c
      refine ⟨e, es ++ (sd.map escTextChar).flatten, ?_, hlt⟩
      simp [escText, hd, he]

theorem c14nForest_elem_head (tag : String) (attrs : List (String × String))
    (cs t : List XNode) :
    ∃ w, c14nForest (.elem tag attrs cs :: t) = '<' :: w := by
  refine ⟨tag.data ++ (((sortAttrs attrs).map renderAttr).flatten ++ '>' ::
    (c14nForest cs ++ ('<' :: '/' :: tag.data ++ '>' :: c14nForest t))), ?_⟩
  simp [c14nForest, c14nNode, List.append_assoc]

theorem flatten_render_shape (as : List (String × String)) (W : List Char) :
    ((as.map renderAttr).flatten ++ '>' :: W) = [] ∨
    ∃ c w, ((as.map renderAttr).flatten ++ '>' :: W) = c :: w ∧
      isNameChar c = false := by
  cases as with
  | nil => exact Or.inr ⟨'>', W, rfl, by decide⟩
  | cons a as' =>
      obtain ⟨n0, v0⟩ := a
      refine Or.inr ⟨' ', n0.data ++ ('=' :: '"' :: (escAttr v0 ++ '"' ::
        ((as'.map renderAttr).flatten ++ '>' :: W))), ?_, by decide⟩
      simp [renderAttr, List.append_assoc]

theorem parseNodes_roundtrip : ∀ (fuel : Nat) (ts : List XNode) (rest : List Char),
    sizeF ts < fuel → wfF ts = true →
    (rest = [] ∨ ∃ w, rest = '<' :: '/' :: w) →
    parseNodesAux fuel (c14nForest ts ++ rest) = some (canonF ts, rest)
  | 0, ts, rest => by
      intro hf _ _
      exact absurd hf (Nat.not_lt_zero _)
  | fuel + 1, [], rest => by
      intro _ _ hr
      rcases hr with rfl | ⟨w, rfl⟩
      · rfl
      · rfl
  | fuel + 1, .text s :: t, rest => by
      intro hf hwf hr
      have hwn := (wfF_cons hwf).1
      have hwt := (wfF_cons hwf).2
      have hsne : s.data ≠ [] := by
        intro h0
        simp only [wfN, h0, List.isEmpty_nil, Bool.not_true] at hwn
        exact Bool.noConfusion hwn
      obtain ⟨e, es, hesc, hene⟩ := escText_shape hsne
      have hRshape : (c14nForest t ++ rest) = [] ∨
          ∃ w, c14nForest t ++ rest = '<' :: w := by
        rcases wfF_text_next hwf with rfl | ⟨tg, ats, cs0, t', rfl⟩
        · rcases hr with rfl | ⟨w, rfl⟩
          · exact Or.inl rfl
          · exact Or.inr ⟨'/' :: w, rfl⟩
        · obtain ⟨w, hw⟩ := c14nForest_elem_head tg ats cs0 t'
          exact Or.inr ⟨w ++ rest, by rw [hw]; rfl⟩
      have hin : c14nForest (.text s :: t) ++ rest =
          escText s ++ (c14nForest t ++ rest) := by
        simp [c14nForest, c14nNode, List.append_assoc]
      rw [hin]
      rw [parseNodesAux.eq_def]
      dsimp only
      have hcons : escText s ++ (c14nForest t ++ rest) =
          e :: (es ++ (c14nForest t ++ rest)) := by
        rw [hesc]
        rfl
      rw [hcons]
      split
      · rename_i heq
        exact absurd heq (List.cons_ne_nil _ _)
      · rename_i w heq
        have hc := ((List.cons.injEq _ _ _ _).mp heq).1
        exact absurd hc hene
      · rename_i w heq
        have hc := ((List.cons.injEq _ _ _ _).mp heq).1
        exact absurd hc hene
      · rw [← hcons]
        have hq : ∀ d ∈ escText s, decide (d ≠ '<') = true := by
          intro d hd
          rw [decide_eq_true_eq]
          intro he
          rw [he] at hd
          exact escText_not_lt s hd
        have htk : List.takeWhile (fun c => decide (c ≠ '<'))
            (escText s ++ (c14nForest t ++ rest)) = escText s := by
          rw [@takeWhile_append_all (fun c => decide (c ≠ '<')) (escText s) _ hq]
          rcases hRshape with h0 | ⟨w, h0⟩ <;> rw [h0] <;>
            simp [List.takeWhile_cons]
        have hdk : List.dropWhile (fun c => decide (c ≠ '<'))
            (escText s ++ (c14nForest t ++ rest)) = c14nForest t ++ rest := by
          rw [@dropWhile_append_all (fun c => decide (c ≠ '<')) (escText s) _ hq]
          rcases hRshape with h0 | ⟨w, h0⟩ <;> rw [h0] <;>
            simp [List.dropWhile_cons]
        rw [htk, unescape_escText s, hdk]
        simp only [Option.pure_def, Option.bind_eq_bind, Option.some_bind]
        rw [parseNodes_roundtrip fuel t rest
          (by simp only [sizeF, sizeN] at hf; omega) hwt hr]
        simp only [Option.some_bind]
        rfl
  | fuel + 1, .elem tag attrs cs :: t, rest => by
      intro hf hwf hr
      have hwt := (wfF_cons hwf).2
      obtain ⟨htagne, htagnc, htagrt, hattrs, hnd, hwcs⟩ :=
        wfN_elem_parts (wfF_cons hwf).1
      simp only [sizeF, sizeN] at hf
      have hshape : c14nForest (.elem tag attrs cs :: t) ++ rest =
          '<' :: (tag.data ++ (((sortAttrs attrs).map renderAttr).flatten ++
            '>' :: (c14nForest cs ++ '<' :: '/' :: (tag.data ++
              '>' :: (c14nForest t ++ rest))))) := by
        simp [c14nForest, c14nNode, List.append_assoc]
      rw [hshape]
      rw [parseNodesAux.eq_def]
      dsimp only
      cases htd : tag.data with
      | nil => exact absurd htd htagne
      | cons c0 td =>
      have hc0 : isNameChar c0 = true := htagnc c0 (by rw [htd]; simp)
      simp only [List.cons_append]
      split
      · rename_i heq
        exact absurd heq (List.cons_ne_nil _ _)
      · rename_i w heq
        have hc := ((List.cons.injEq _ _ _ _).mp
          ((List.cons.injEq _ _ _ _).mp heq).2).1
        rw [hc] at hc0
        exact absurd hc0 (by decide)
      · -- the element arm
        rename_i cs1 w hns heq
        have hw : w = c0 :: (td ++ (((sortAttrs attrs).map renderAttr).flatten ++
            '>' :: (c14nForest cs ++ '<' :: '/' :: (c0 :: (td ++
              '>' :: (c14nForest t ++ rest)))))) :=
          (((List.cons.injEq _ _ _ _).mp heq).2).symm
        rw [hw]
        have hback : c0 :: (td ++ (((sortAttrs attrs).map renderAttr).flatten ++
            '>' :: (c14nForest cs ++ '<' :: '/' :: (c0 :: (td ++
              '>' :: (c14nForest t ++ rest)))))) =
            tag.data ++ (((sortAttrs attrs).map renderAttr).flatten ++
            '>' :: (c14nForest cs ++ '<' :: '/' :: (c0 :: (td ++
              '>' :: (c14nForest t ++ rest))))) := by
          rw [htd]
          rfl
        rw [hback]
        rw [lexName_exact tag _ htagne htagnc
          (flatten_render_shape (sortAttrs attrs) _)]
        simp only [Option.pure_def, Option.bind_eq_bind, Option.some_bind]
        have hlen : (sortAttrs attrs).length < fuel + 1 := by
          rw [(sortAttrs_perm attrs).length_eq]
          omega
        have hwfa : ∀ a ∈ sortAttrs attrs, a.1.data ≠ [] ∧ ∀ c ∈ a.1.data,
            isNameChar c = true := fun a ha => hattrs a ((sortAttrs_perm attrs).subset ha)
        rw [parseAttrs_roundtrip (sortAttrs attrs) (fuel + 1) _ hlen hwfa]
        simp only [Option.some_bind]
        rw [if_pos (nodup_keys_sortAttrs hnd)]
        rw [parseNodes_roundtrip fuel cs ('<' :: '/' :: (c0 :: (td ++
          '>' :: (c14nForest t ++ rest)))) (by omega) hwcs (Or.inr ⟨_, rfl⟩)]
        simp only [Option.some_bind]
        rw [show c0 :: (td ++ '>' :: (c14nForest t ++ rest)) =
          tag.data ++ ('>' :: (c14nForest t ++ rest)) from by rw [htd]; rfl]
        rw [lexName_exact tag _ htagne htagnc (Or.inr ⟨'>', _, rfl, by decide⟩)]
        simp only [Option.some_bind]
        simp only [if_true]
        rw [parseNodes_roundtrip fuel t rest (by omega) hwt hr]
        simp only [Option.some_bind]
        rfl
      · rename_i hno1 hno2 hno3
        exact (hno3 _ rfl).elim

theorem escTextChar_length (c : Char) : 1 ≤ (escTextChar c).length := by
  unfold escTextChar
  split <;> simp

theorem escText_length {s : String} (h : s.data ≠ []) : 1 ≤ (escText s).length := by
  cases hd : s.data with
  | nil => exact absurd hd h
  | cons c l =>
      simp only [escText, hd, List.map_cons, List.flatten_cons, List.length_append]
      have := escTextChar_length c
      omega

theorem flatten_render_length (as : List (String × String)) :
    as.length ≤ ((as.map renderAttr).flatten).length := by
  induction as with
  | nil => simp
  | cons a as ih =>
      simp only [List.map_cons, List.flatten_cons, List.length_append, List.length_cons]
      have h1 : 1 ≤ (renderAttr a).length := by simp [renderAttr]
      omega

mutual

theorem sizeN_le_c14nLen : ∀ n : XNode, wfN n = true → sizeN n ≤ (c14nNode n).length
  | .text s, h => by
      have hne : s.data ≠ [] := by
        intro h0
        simp only [wfN, h0, List.isEmpty_nil, Bool.not_true] at h
        exact Bool.noConfusion h
      simpa [sizeN, c14nNode] using escText_length hne
  | .elem tag attrs children, h => by
      obtain ⟨_, _, _, _, _, hwc⟩ := wfN_elem_parts h
      have h1 := sizeF_le_c14nLen children hwc
      have h2 : attrs.length ≤ (((sortAttrs attrs).map renderAttr).flatten).length := by
        have := flatten_render_length (sortAttrs attrs)
        rw [(sortAttrs_perm attrs).length_eq] at this
        exact this
      simp only [sizeN, c14nNode, List.length_append, List.length_cons]
      omega

theorem sizeF_le_c14nLen : ∀ ts : List XNode, wfF ts = true →
    sizeF ts ≤ (c14nForest ts).length
  | [], _ => Nat.le_refl 0
  | n :: t, h => by
      simp only [sizeF, c14nForest, List.length_append]
      exact Nat.add_le_add (sizeN_le_c14nLen n (wfF_cons h).1)
        (sizeF_le_c14nLen t (wfF_cons h).2)

end

/-- The nine-character tail shared by both richtext wrapper tags. -/
def patRT : List Char := ['r', 'i', 'c', 'h', 't', 'e', 'x', 't', '>']

/-- The characters of the richtext open tag. -/
def patOpen : List Char := '<' :: patRT

/-- The characters of the richtext close tag. -/
def patClose : List Char := '<' :: '/' :: patRT

theorem strip_patOpen (xs : List Char) :
    stripRichtextTags (patOpen ++ xs) = stripRichtextTags xs := rfl

theorem strip_patClose (xs : List Char) :
    stripRichtextTags (patClose ++ xs) = stripRichtextTags xs := rfl

theorem stripGo_cons_no_pat {c : Char} {l : List Char}
    (h1 : ¬ patClose <+: (c :: l)) (h2 : ¬ patOpen <+: (c :: l)) :
    stripGo 0 (c :: l) = c :: stripGo 0 l := by
  have h1' : ¬((c :: l).take 11 =
      ['<', '/', 'r', 'i', 'c', 'h', 't', 'e', 'x', 't', '>']) := by
    intro he
    exact h1 (List.prefix_iff_eq_take.mpr he.symm)
  have h2' : ¬((c :: l).take 10 =
      ['<', 'r', 'i', 'c', 'h', 't', 'e', 'x', 't', '>']) := by
    intro he
    exact h2 (List.prefix_iff_eq_take.mpr he.symm)
  simp only [stripGo]
  rw [if_neg h1', if_neg h2']

/-- No suffix of `a`, however extended to the right, starts a richtext
wrapper tag: pattern matches can neither begin inside `a` nor straddle its
right edge. -/
def NoPatAcross (a : List Char) : Prop :=
  ∀ t r : List Char, t <:+ a → t ≠ [] →
    ¬ patOpen <+: (t ++ r) ∧ ¬ patClose <+: (t ++ r)

theorem suffix_append_split {t a b : List Char} (h : t <:+ a ++ b) :
    (∃ t', t' <:+ a ∧ t' ≠ [] ∧ t = t' ++ b) ∨ t <:+ b := by
  induction a with
  | nil => exact Or.inr (by simpa using h)
  | cons c a ih =>
      rw [List.cons_append, List.suffix_cons_iff] at h
      rcases h with rfl | h2
      · exact Or.inl ⟨c :: a, List.suffix_refl _, List.cons_ne_nil _ _, by simp⟩
      · rcases ih h2 with ⟨t', ht1, ht2, ht3⟩ | hb
        · exact Or.inl ⟨t', List.suffix_cons_iff.mpr (Or.inr ht1), ht2, ht3⟩
        · exact Or.inr hb

theorem npa_append {a b : List Char} (ha : NoPatAcross a) (hb : NoPatAcross b) :
    NoPatAcross (a ++ b) := by
  intro t r ht htne
  rcases suffix_append_split ht with ⟨t', h1, h2, rfl⟩ | h
  · have h3 := ha t' (b ++ r) h1 h2
    simpa [List.append_assoc] using h3
  · exact hb t r h htne

theorem head_ne_no_pref {cp c : Char} {pl t0 r : List Char} (hne : cp ≠ c) :
    ¬ (cp :: pl) <+: (c :: t0 ++ r) := by
  rintro ⟨u, hu⟩
  rw [List.cons_append, List.cons_append] at hu
  exact hne ((List.cons.injEq _ _ _ _).mp hu).1

theorem npa_of_not_mem_lt {a : List Char} (h : '<' ∉ a) : NoPatAcross a := by
  intro t r ht htne
  cases t with
  | nil => exact absurd rfl htne
  | cons c t0 =>
      have hc : '<' ≠ c := by
        intro he
        exact h (ht.subset (by simp [← he]))
      exact ⟨head_ne_no_pref hc, head_ne_no_pref hc⟩

theorem npa_suffix {a b : List Char} (h : NoPatAcross a) (hs : b <:+ a) :
    NoPatAcross b :=
  fun t r ht htne => h t r (ht.trans hs) htne

theorem strip_no_pat {xs : List Char} (h : NoPatAcross xs) :
    stripRichtextTags (xs ++ patClose) = xs := by
  induction xs with
  | nil => rfl
  | cons c cs ih =>
      have hx := h (c :: cs) patClose (List.suffix_refl _) (List.cons_ne_nil _ _)
      have hstep : stripRichtextTags ((c :: cs) ++ patClose) =
          c :: stripRichtextTags (cs ++ patClose) := by
        show stripGo 0 (c :: (cs ++ patClose)) = c :: stripGo 0 (cs ++ patClose)
        exact stripGo_cons_no_pat (fun hp => hx.2 (by simpa using hp))
          (fun hp => hx.1 (by simpa using hp))
      rw [hstep, ih (npa_suffix h (List.suffix_cons c cs))]

theorem patRT_no_pref {tag : String} (htagnc : ∀ c ∈ tag.data, isNameChar c = true)
    (htagrt : tag ≠ "richtext") {z : List Char}
    (hz : (∃ w, z = '>' :: w) ∨ (∃ w, z = ' ' :: w)) :
    ¬ patRT <+: (tag.data ++ z) := by
  intro hpre
  have htake := List.prefix_iff_eq_take.mp hpre
  by_cases hlen : 9 ≤ tag.data.length
  · rw [show patRT.length = 9 from rfl, List.take_append_eq_append_take,
      show (9 : Nat) - tag.data.length = 0 from by omega, List.take_zero,
      List.append_nil] at htake
    have hmem : '>' ∈ tag.data := by
      have h1 : '>' ∈ tag.data.take 9 := by
        rw [← htake]
        decide
      exact List.take_subset 9 tag.data h1
    exact absurd (htagnc '>' hmem) (by decide)
  · push_neg at hlen
    rw [show patRT.length = 9 from rfl, List.take_append_eq_append_take,
      List.take_of_length_le (by omega)] at htake
    rcases hz with ⟨w, rfl⟩ | ⟨w, rfl⟩
    · -- z starts with '>': only position 8 of patRT is '>', so tag = "richtext"
      have h9 : (9 : Nat) - tag.data.length = (8 - tag.data.length) + 1 := by omega
      rw [h9, List.take_succ_cons] at htake
      have htd : tag.data = patRT.take tag.data.length := by
        rw [htake, List.take_left]
      have hor : tag.data.length = 0 ∨ tag.data.length = 1 ∨ tag.data.length = 2 ∨
          tag.data.length = 3 ∨ tag.data.length = 4 ∨ tag.data.length = 5 ∨
          tag.data.length = 6 ∨ tag.data.length = 7 ∨ tag.data.length = 8 := by
        omega
      rcases hor with hK | hK | hK | hK | hK | hK | hK | hK | hK <;>
        rw [hK] at htd htake <;> rw [htd] at htake <;>
        first
          | exact htagrt (by rw [show tag = String.mk tag.data from rfl, htd]; rfl)
          | simp [patRT] at htake
    · -- z starts with ' ': patRT would contain a space
      have h9 : (9 : Nat) - tag.data.length = (8 - tag.data.length) + 1 := by omega
      rw [h9, List.take_succ_cons] at htake
      have hmem : ' ' ∈ patRT := by
        rw [htake]
        exact List.mem_append_right _ (by simp)
      revert hmem
      decide

theorem flatten_render_head (as : List (String × String)) (W : List Char) :
    (∃ w, (as.map renderAttr).flatten ++ '>' :: W = '>' :: w) ∨
    (∃ w, (as.map renderAttr).flatten ++ '>' :: W = ' ' :: w) := by
  cases as with
  | nil => exact Or.inl ⟨W, rfl⟩
  | cons a as' =>
      obtain ⟨n0, v0⟩ := a
      refine Or.inr ⟨n0.data ++ ('=' :: '"' :: (escAttr v0 ++ '"' ::
        ((as'.map renderAttr).flatten ++ '>' :: W))), ?_⟩
      simp [renderAttr, List.append_assoc]

theorem not_mem_lt_renderAttrs {attrs : List (String × String)}
    (h : ∀ a ∈ attrs, ∀ c ∈ a.1.data, isNameChar c = true) :
    '<' ∉ (attrs.map renderAttr).flatten := by
  intro hm
  simp only [List.mem_flatten, List.mem_map] at hm
  obtain ⟨l, ⟨a, ha, rfl⟩, hmem⟩ := hm
  have hname := h a ha
  simp only [renderAttr] at hmem
  rcases List.mem_append.mp hmem with h1 | h1
  · rcases List.mem_append.mp h1 with h2 | h2
    · rcases List.mem_cons.mp h2 with h3 | h3
      · exact absurd h3 (by decide)
      · exact absurd (hname '<' h3) (by decide)
    · rcases List.mem_cons.mp h2 with h3 | h3
      · exact absurd h3 (by decide)
      · rcases List.mem_cons.mp h3 with h4 | h4
        · exact absurd h4 (by decide)
        · exact escAttr_not_lt a.2 h4
  · exact absurd (List.mem_singleton.mp h1) (by decide)

theorem npa_open {tag : String} {attrs : List (String × String)}
    (htagne : tag.data ≠ []) (htagnc : ∀ c ∈ tag.data, isNameChar c = true)
    (htagrt : tag ≠ "richtext")
    (hanc : ∀ a ∈ attrs, ∀ c ∈ a.1.data, isNameChar c = true) :
    NoPatAcross ('<' :: (tag.data ++ ((attrs.map renderAttr).flatten ++ ['>']))) := by
  intro t r ht htne
  rw [List.suffix_cons_iff] at ht
  rcases ht with rfl | ht2
  · constructor
    · rintro ⟨u, hu⟩
      rw [show patOpen ++ u = '<' :: (patRT ++ u) from rfl, List.cons_append] at hu
      have h2 := ((List.cons.injEq _ _ _ _).mp hu).2
      have h3 : patRT <+: tag.data ++ ((attrs.map renderAttr).flatten ++ '>' :: r) :=
        ⟨u, by rw [h2]; simp [List.append_assoc]⟩
      exact patRT_no_pref htagnc htagrt (flatten_render_head attrs r) h3
    · rintro ⟨u, hu⟩
      cases htd : tag.data with
      | nil => exact absurd htd htagne
      | cons c0 td =>
          rw [show patClose ++ u = '<' :: '/' :: (patRT ++ u) from rfl,
            List.cons_append, htd] at hu
          have h2 := ((List.cons.injEq _ _ _ _).mp hu).2
          rw [List.cons_append] at h2
          have h3 := ((List.cons.injEq _ _ _ _).mp h2).1
          have hc0 := htagnc c0 (by rw [htd]; simp)
          rw [← h3] at hc0
          exact absurd hc0 (by decide)
  · have hlt : '<' ∉ tag.data ++ ((attrs.map renderAttr).flatten ++ ['>']) := by
      intro hm
      simp only [List.mem_append, List.mem_singleton] at hm
      rcases hm with h1 | h1 | h1
      · exact absurd (htagnc '<' h1) (by decide)
      · exact not_mem_lt_renderAttrs hanc h1
      · exact absurd h1 (by decide)
    exact npa_of_not_mem_lt hlt t r ht2 htne

theorem npa_close {tag : String}
    (htagne : tag.data ≠ []) (htagnc : ∀ c ∈ tag.data, isNameChar c = true)
    (htagrt : tag ≠ "richtext") :
    NoPatAcross ('<' :: '/' :: (tag.data ++ ['>'])) := by
  intro t r ht htne
  rw [List.suffix_cons_iff] at ht
  rcases ht with rfl | ht2
  · constructor
    · rintro ⟨u, hu⟩
      rw [show patOpen ++ u = '<' :: ('r' :: (patRT.tail ++ u)) from rfl,
        List.cons_append] at hu
      have h2 := ((List.cons.injEq _ _ _ _).mp hu).2
      have h3 := ((List.cons.injEq _ _ _ _).mp h2).1
      exact absurd h3 (by decide)
    · rintro ⟨u, hu⟩
      rw [show patClose ++ u = '<' :: '/' :: (patRT ++ u) from rfl,
        List.cons_append] at hu
      have h2 := ((List.cons.injEq _ _ _ _).mp hu).2
      have h3 := ((List.cons.injEq _ _ _ _).mp h2).2
      have h4 : patRT <+: tag.data ++ ('>' :: r) :=
        ⟨u, by rw [h3]; simp [List.append_assoc]⟩
      exact patRT_no_pref htagnc htagrt (Or.inl ⟨r, rfl⟩) h4
  · rw [List.suffix_cons_iff] at ht2
    rcases ht2 with rfl | ht3
    · constructor
      · rintro ⟨u, hu⟩
        rw [show patOpen ++ u = '<' :: (patRT ++ u) from rfl, List.cons_append] at hu
        have h3 := ((List.cons.injEq _ _ _ _).mp hu).1
        exact absurd h3 (by decide)
      · rintro ⟨u, hu⟩
        rw [show patClose ++ u = '<' :: ('/' :: (patRT ++ u)) from rfl,
          List.cons_append] at hu
        have h3 := ((List.cons.injEq _ _ _ _).mp hu).1
        exact absurd h3 (by decide)
    · have hlt : '<' ∉ tag.data ++ ['>'] := by
        intro hm
        simp only [List.mem_append, List.mem_singleton] at hm
        rcases hm with h1 | h1
        · exact absurd (htagnc '<' h1) (by decide)
        · exact absurd h1 (by decide)
      exact npa_of_not_mem_lt hlt t r ht3 htne

mutual

theorem npaN : ∀ n : XNode, wfN n = true → NoPatAcross (c14nNode n)
  | .text s, _ => npa_of_not_mem_lt (escText_not_lt s)
  | .elem tag attrs children, h => by
      obtain ⟨htagne, htagnc, htagrt, hattrs, hnd, hwc⟩ := wfN_elem_parts h
      have hch := npaF children hwc
      have heq : c14nNode (.elem tag attrs children) =
          ('<' :: (tag.data ++ (((sortAttrs attrs).map renderAttr).flatten ++ ['>']))) ++
          (c14nForest children ++ ('<' :: '/' :: (tag.data ++ ['>']))) := by
        simp [c14nNode, List.append_assoc]
      rw [heq]
      refine npa_append (npa_open htagne htagnc htagrt ?_)
        (npa_append hch (npa_close htagne htagnc htagrt))
      exact fun a ha => (hattrs a ((sortAttrs_perm attrs).subset ha)).2

theorem npaF : ∀ ns : List XNode, wfF ns = true → NoPatAcross (c14nForest ns)
  | [], _ => by
      intro t r ht htne
      exact absurd (List.suffix_nil.mp ht) htne
  | n :: ts, h =>
      npa_append (npaN n (wfF_cons h).1) (npaF ts (wfF_cons h).2)

end

theorem serializeFragment_eq_c14n {ts : List XNode} (h : wfF ts = true) :
    serializeFragment ts = ⟨c14nForest ts⟩ := by
  have hser : c14nNode (.elem "richtext" [] ts) =
      patOpen ++ (c14nForest ts ++ patClose) := by
    rw [show ("richtext" : String) = ⟨['r', 'i', 'c', 'h', 't', 'e', 'x', 't']⟩ from
      by decide]
    simp [c14nNode, sortAttrs, patOpen, patClose, patRT, List.append_assoc]
  unfold serializeFragment richtext_element_to_string
  rw [hser, strip_patOpen, strip_no_pat (npaF ts h)]

theorem parse_serializeFragment {ts : List XNode} (h : wfF ts = true) :
    parseFragment (serializeFragment ts) = some (canonF ts) := by
  rw [serializeFragment_eq_c14n h]
  unfold parseFragment
  have hlen : sizeF ts < (String.mk (c14nForest ts)).length + 2 := by
    have h1 := sizeF_le_c14nLen ts h
    have h2 : (String.mk (c14nForest ts)).length = (c14nForest ts).length := rfl
    omega
  have hmain := parseNodes_roundtrip ((String.mk (c14nForest ts)).length + 2) ts []
    hlen h (Or.inl rfl)
  rw [List.append_nil] at hmain
  have hdata : (String.mk (c14nForest ts)).data = c14nForest ts := rfl
  rw [hdata, hmain]

mutual

theorem wfN_attrsNodupN : ∀ n : XNode, wfN n = true → attrsNodupN n = true
  | .text _, _ => rfl
  | .elem tag attrs children, h => by
      obtain ⟨_, _, _, _, hnd, hwc⟩ := wfN_elem_parts h
      simp [attrsNodupN, hnd, wfF_attrsNodupF children hwc]

theorem wfF_attrsNodupF : ∀ ns : List XNode, wfF ns = true → attrsNodupF ns = true
  | [], _ => rfl
  | n :: t, h => by
      simp [attrsNodupF, wfN_attrsNodupN n (wfF_cons h).1,
        wfF_attrsNodupF t (wfF_cons h).2]

end

/-- C7 counterexample: canonical re-serialization is not byte-for-byte
identity on fragments with zero page-link anchors (a self-closing tag is
expanded), and rewriting twice does not equal rewriting once when the id map
chains (5 to 7 and 7 to 9). -/
theorem C7_richtext_identity_idempotence_counterexample :
    update_page_fks_in_rich_text (.str "<br/>") (.int 1) (.str "body") [] =
      .ok (.str "<br></br>", RW.empty) ∧
    ("<br></br>" : String) ≠ "<br/>" ∧
    update_page_fks_in_rich_text (.str "<a id=\"5\" linktype=\"page\"></a>") (.int 1)
      (.str "body") [(.int 5, .int 7), (.int 7, .int 9)] =
      .ok (.str "<a id=\"7\" linktype=\"page\"></a>", RW.empty) ∧
    update_page_fks_in_rich_text (.str "<a id=\"7\" linktype=\"page\"></a>") (.int 1)
      (.str "body") [(.int 5, .int 7), (.int 7, .int 9)] =
      .ok (.str "<a id=\"9\" linktype=\"page\"></a>", RW.empty) ∧
    ("<a id=\"9\" linktype=\"page\"></a>" : String) ≠ "<a id=\"7\" linktype=\"page\"></a>" :=
  ⟨rfl, by decide, rfl, rfl, by decide⟩

/-- C7 as amended: (1) on a fragment already in canonical form with zero
page-link anchors, rewriting is byte-for-byte identity; (2) for a parseable
fragment whose rewrite succeeded, whose rewritten tree is syntactically
well-formed (nonempty name-character tags other than richtext, duplicate-free
well-named attributes, nonempty non-adjacent text nodes), and for an
identifier map that is int-valued and idempotent (and a host page id that
formats), rewriting the rewriter's output returns the same string; the
reparse stability of the serializer is proved, not assumed
(parse_serializeFragment). -/
theorem C7_richtext_canonical_identity_and_idempotence :
    (∀ (s : String) (pid fname : PyVal) (m : IdMap) (ns : List XNode),
      parseFragment s = some ns → serializeFragment ns = s → anchorIdsF ns = [] →
      update_page_fks_in_rich_text (.str s) pid fname m = .ok (.str s, RW.empty)) ∧
    (∀ (s : String) (pid fname : PyVal) (m : IdMap) (ns ns2 : List XNode)
       (ws : List String),
      parseFragment s = some ns →
      rtForestGo m pid fname ns = .ok (ns2, ws) →
      wfF ns2 = true →
      (∀ a b, dlookup m a = some b →
        dlookup m b = Option.none ∨ dlookup m b = some b) →
      (∀ a b, dlookup m a = some b → ∃ k, b = .int k) →
      (∃ d, pyFmtD pid = .ok d) →
      ∃ ws2, update_page_fks_in_rich_text (.str (serializeFragment ns2)) pid fname m =
        .ok (.str (serializeFragment ns2), ⟨ws2, [], []⟩)) := by
  constructor
  · intro s pid fname m ns hp hs ha
    have hgo := rtForestGo_no_anchors m pid fname ns ha
    simp only [update_page_fks_in_rich_text, pyStrS, hp, hgo, bind, Except.bind]
    rw [show richtext_element_to_string (.elem "richtext" [] ns) = serializeFragment ns
      from rfl, hs]
    rfl
  · intro s pid fname m ns ns2 ws hp hr hwf hIdem hInt hpidOk
    have hnd := wfF_attrsNodupF ns2 hwf
    have hre := parse_serializeFragment hwf
    obtain ⟨ws2, hidem⟩ := rtForestGo_idem m pid fname hIdem hInt hpidOk ns ns2 ws hr
    have hcomm := rtForestGo_canon m pid fname ns2 ns2 ws2 hnd hidem
    refine ⟨ws2, ?_⟩
    simp only [update_page_fks_in_rich_text, pyStrS, hre, hcomm, bind, Except.bind]
    rw [show richtext_element_to_string (.elem "richtext" [] (canonF ns2)) =
      serializeFragment (canonF ns2) from rfl, serializeFragment_canon]

/-- The rewritten tree of the C7 witness fragment. -/
def C7ns2 : List XNode := [.elem "a" [("id", "7"), ("linktype", "page")] []]

/-- The C7 witness identifier map. -/
def C7m2 : IdMap := [(.int 5, .int 7)]

/-- Witness for the amended C7 at concrete fragments: identity on the
canonical zero-anchor fragment, and a stable second rewrite of the
rewriter's own output. -/
theorem C7_richtext_canonical_witness :
    update_page_fks_in_rich_text (.str "<b>hi</b>") (.int 1) (.str "body") [] =
      .ok (.str "<b>hi</b>", RW.empty) ∧
    (∃ ws2, update_page_fks_in_rich_text (.str (serializeFragment C7ns2)) (.int 1)
        (.str "body") C7m2 =
      .ok (.str (serializeFragment C7ns2), ⟨ws2, [], []⟩)) :=
  ⟨C7_richtext_canonical_identity_and_idempotence.1 "<b>hi</b>" (.int 1) (.str "body") []
    [.elem "b" [] [.text "hi"]] rfl rfl rfl,
   C7_richtext_canonical_identity_and_idempotence.2 "<a id=\"5\" linktype=\"page\"></a>"
    (.int 1) (.str "body") C7m2 [.elem "a" [("id", "5"), ("linktype", "page")] []]
    C7ns2 [] rfl rfl (by decide)
    (by
      intro a b h
      by_cases ha : (PyVal.int 5) = a
      · rw [← ha] at h
        simp only [C7m2, dlookup, if_pos rfl] at h
        injection h with h
        subst h
        exact Or.inl rfl
      · simp only [C7m2, dlookup, if_neg ha] at h
        exact absurd h (by simp [dlookup]))
    (by
      intro a b h
      by_cases ha : (PyVal.int 5) = a
      · rw [← ha] at h
        simp only [C7m2, dlookup, if_pos rfl] at h
        injection h with h
        subst h
        exact ⟨7, rfl⟩
      · simp only [C7m2, dlookup, if_neg ha] at h
        exact absurd h (by simp [dlookup]))
    ⟨"1", rfl⟩⟩
